import Mathlib

/-!
# core/data-include

A shallow embedding of `src/core/data-include.js` and the properties of its
specification.

The module scans the document for elements bearing `data-include`, tags each
one that has a URL with a random correlation token, fetches the URL, and, when
the body arrives, looks the element up again by its token, injects the
(transformed) content and strips the directive attributes.  A failure in one
element's pipeline is caught, logged and published on the `"error"` topic.

## Modelling decisions

* The document tree is a forest of `Node`s (text nodes and elements with an
  ordered attribute list).  The forest is the child list of a container that
  accepts any children, such as the `body`; the document element itself, whose
  replacement the DOM restricts, is not a candidate in this model.
* A JavaScript element reference (`el`) is a `Path` into the forest.  During
  the synchronous scan only attributes change, so the paths returned by
  `querySelectorAll` stay valid; `processResponse` obtains a fresh path from
  `querySelector` and works on it without interruption.
* The host primitives are parameters gathered in `Env`: the text of
  `String(Math.random())` for each draw, the outcome of each fetch, the
  transform pipeline `runTransforms` (from `./utils.js`), the fragment parser
  behind the `innerHTML` setter, and the message of the `TypeError` raised by
  reading a property of `null`.  The transform pipeline is taken as a function
  of its arguments that returns or throws; it does not touch the document.
* `pub` (from `./pubsubhub.js`) and `console.error` are recorded in the state;
  they do not throw.
* A thrown value is described by what the `catch` block does with it.  The
  template literal evaluates `err.message` and converts it to a string: this
  throws for `null` and `undefined`, and also for a value whose `message`
  getter throws or whose `message` has no string conversion (a `Symbol`);
  otherwise it yields a text.
* `run()` is asynchronous.  The callbacks of `Array.from(...).map` run
  synchronously, in document order, up to their first `await` (`scan`); each
  pipeline is then resumed once, when its fetch has settled (`resume`).  The
  two awaits of one pipeline touch no state in between, and `processResponse`
  is synchronous, so an execution is determined by the order in which the
  pipelines are resumed: `order`, a permutation of the pipelines created by the
  scan.  Every fetch is assumed to settle.
* `Promise.all` rejects as soon as one callback's promise rejects, and cancels
  nothing.  `run env doc order` is therefore the state at the moment the
  promise returned by `run()` settles: after every pipeline when all callbacks
  fulfil, and right after the first rejecting callback otherwise, with the
  later pipelines of `order` still suspended.  `completed env doc order` is
  the state once every pipeline has finished, which in a rejecting execution
  is later than the settlement of `run()`.
-/

namespace DataInclude

/-! ## Document tree -/

/-- Attribute list of an element: names with values, in attribute order. -/
abbrev Attrs := List (String × String)

/-- Document nodes: text nodes and elements. -/
inductive Node where
  | text (data : String)
  | element (tag : String) (attrs : Attrs) (children : List Node)
deriving Repr

/-- Reference to a node of a forest: `here` is the first node of the forest,
`next p` skips the first node, `down p` enters the children of the first node. -/
inductive Path where
  | here
  | next (p : Path)
  | down (p : Path)
deriving DecidableEq, Repr

/-- Value of attribute `name`, when present (`el.getAttribute(name)`). -/
def getAttribute : Attrs → String → Option String
  | [], _ => none
  | (k, v) :: rest, name => if k = name then some v else getAttribute rest name

/-- Attribute list after `el.setAttribute(name, value)`: an existing attribute
keeps its place, a new one is appended. -/
def setAttribute : Attrs → String → String → Attrs
  | [], name, value => [(name, value)]
  | (k, v) :: rest, name, value =>
    if k = name then (k, value) :: rest else (k, v) :: setAttribute rest name value

/-- Attribute list after `el.removeAttribute(name)`. -/
def removeAttribute (attrs : Attrs) (name : String) : Attrs :=
  attrs.filter (fun kv => decide (kv.1 ≠ name))

/-- Node referenced by a path, if the path is valid in the forest. -/
def nodeAt : Path → List Node → Option Node
  | _, [] => none
  | .here, n :: _ => some n
  | .next p, _ :: rest => nodeAt p rest
  | .down p, .element _ _ kids :: _ => nodeAt p kids
  | .down _, .text _ :: _ => none

/-- Substitute the node referenced by a path with the nodes `f` makes of it. -/
def modifyAt (f : Node → List Node) : Path → List Node → List Node
  | _, [] => []
  | .here, n :: rest => f n ++ rest
  | .next p, n :: rest => n :: modifyAt f p rest
  | .down p, .element t a kids :: rest => .element t a (modifyAt f p kids) :: rest
  | .down _, .text s :: rest => .text s :: rest

mutual
/-- Paths, in document order, of the elements of `[n]` whose attributes satisfy `sel`. -/
def selectNode (sel : Attrs → Bool) : Node → List Path
  | .text _ => []
  | .element _ a kids =>
    (if sel a then [Path.here] else []) ++ (selectForest sel kids).map Path.down
/-- Paths, in document order, of the elements of a forest whose attributes satisfy `sel`. -/
def selectForest (sel : Attrs → Bool) : List Node → List Path
  | [] => []
  | n :: rest => selectNode sel n ++ (selectForest sel rest).map Path.next
end

/-- Selector `[name]`: the attribute is present. -/
def hasAttributeSelector (name : String) (a : Attrs) : Bool :=
  (getAttribute a name).isSome

/-- Selector `[name=value]`: the attribute is present with exactly this value. -/
def attributeEqualsSelector (name value : String) (a : Attrs) : Bool :=
  decide (getAttribute a name = some value)

/-- Result of `document.querySelectorAll(sel)`: all matches in document order. -/
def querySelectorAll (sel : Attrs → Bool) (doc : List Node) : List Path :=
  selectForest sel doc

/-- Result of `document.querySelector(sel)`: the first match in document order. -/
def querySelector (sel : Attrs → Bool) (doc : List Node) : Option Path :=
  (selectForest sel doc).head?

/-- Value of `el.dataset` entry stored in attribute `name` (`undefined` is `none`). -/
def dataset (doc : List Node) (el : Path) (name : String) : Option String :=
  match nodeAt el doc with
  | some (.element _ a _) => getAttribute a name
  | _ => none

/-- An element with its attribute list rewritten by `g`; a text node is left alone. -/
def withAttributes (g : Attrs → Attrs) : Node → List Node
  | .element t a kids => [.element t (g a) kids]
  | .text s => [.text s]

/-- An element with its children replaced by `g tag`; a text node is left alone. -/
def withChildren (g : String → List Node) : Node → List Node
  | .element t a _ => [.element t a (g t)]
  | .text s => [.text s]

/-- Document after `el.setAttribute(name, value)`. -/
def setAttributeAt (doc : List Node) (el : Path) (name value : String) : List Node :=
  modifyAt (withAttributes (fun a => setAttribute a name value)) el doc

/-- Document after `el.removeAttribute(name)`. -/
def removeAttributeAt (doc : List Node) (el : Path) (name : String) : List Node :=
  modifyAt (withAttributes (fun a => removeAttribute a name)) el doc

/-- Document after `el.textContent = data`: all children are dropped and, unless
the string is empty, a single text node takes their place. -/
def setTextContent (doc : List Node) (el : Path) (data : String) : List Node :=
  modifyAt (withChildren (fun _ => if data = "" then [] else [.text data])) el doc

/-- Document after `el.innerHTML = data`: the children are replaced by what the
fragment parser makes of `data` in the context of the element. -/
def setInnerHTML (parseFragment : String → String → List Node) (doc : List Node) (el : Path)
    (data : String) : List Node :=
  modifyAt (withChildren (fun t => parseFragment t data)) el doc

/-- Value of `el.childNodes`. -/
def childNodes (doc : List Node) (el : Path) : List Node :=
  match nodeAt el doc with
  | some (.element _ _ kids) => kids
  | _ => []

/-- Document after `el.replaceWith(...nodes)` for an element that has a parent. -/
def replaceWith (doc : List Node) (el : Path) (nodes : List Node) : List Node :=
  modifyAt (fun _ => nodes) el doc

/-! ## Host environment and state -/

/-- A value thrown by host code, as far as the failure handler inspects it. -/
inductive Thrown where
  /-- The values `null` and `undefined`: reading `.message` throws a `TypeError`. -/
  | nullish
  /-- A non-nullish value whose `message` the template literal renders as the
  given text (any `Error` with a string message). -/
  | error (message : String)
  /-- A non-nullish value that has no `message`: the property reads `undefined`. -/
  | other
  /-- A non-nullish value whose `message` cannot be made into a string: reading
  the property throws (a getter), or its value has no string conversion (a
  `Symbol`, an object whose `toString` throws). -/
  | unreadable
deriving DecidableEq, Repr

/-- Text that the template literal makes of `err.message`, or `none` when
evaluating it throws. -/
def Thrown.messageText : Thrown → Option String
  | .nullish => none
  | .error m => some m
  | .other => some "undefined"
  | .unreadable => none

/-- How the two awaits `fetch(url)` and `response.text()` of one pipeline end. -/
inductive FetchOutcome where
  /-- The promise of `fetch(url)` rejects. -/
  | rejected (err : Thrown)
  /-- The promise of `fetch(url)` resolves, the one of `response.text()` rejects. -/
  | bodyFailed (err : Thrown)
  /-- Both resolve; `text` is the response body. -/
  | body (text : String)
deriving DecidableEq, Repr

/-- The host primitives the module consumes. -/
structure Env where
  /-- Text of `String(Math.random())` for the `n`-th draw of the run. -/
  random : Nat → String
  /-- Outcome of the `n`-th fetch issued by the run. -/
  outcome : Nat → FetchOutcome
  /-- The function `runTransforms(content, flist, url)` of `./utils.js`, which is
  not among the sources: it returns the transformed content or throws. -/
  runTransforms : String → Option String → String → Except Thrown String
  /-- Fragment parser behind `el.innerHTML = markup`, for a context element tag. -/
  parseFragment : String → String → List Node
  /-- Message of the `TypeError` thrown by `el.dataset` when `el` is `null`. -/
  nullMessage : String

/-- Everything `run()` can observe or change. -/
structure State where
  /-- The document tree. -/
  document : List Node
  /-- URLs passed to `fetch`, in call order. -/
  fetched : List String
  /-- Argument triples passed to `runTransforms`, in call order. -/
  transformCalls : List (String × Option String × String)
  /-- Entries written by `console.error`: the element reference and the error. -/
  logged : List (Path × Thrown)
  /-- Payloads published on the `"error"` topic, in order. -/
  published : List String

/-- A pipeline suspended at `await fetch(url)`: the variables of the closure. -/
structure Pipeline where
  /-- The element reference `el` obtained by the scan. -/
  el : Path
  /-- The constant `url`. -/
  url : String
  /-- The constant `id`, the correlation token. -/
  id : String
  /-- Number of the fetch call, which selects its outcome. -/
  index : Nat
deriving DecidableEq, Repr

/-- How the promise of one `async el => ...` callback settles. -/
inductive Settlement where
  | fulfilled
  | rejected
deriving DecidableEq, Repr

/-! ## The module -/

/-- JavaScript `s.substr(2)`. -/
def substr2 (s : String) : String := String.mk (s.data.drop 2)

/-- The template "include-" followed by `String(Math.random()).substr(2)`. -/
def makeId (randomText : String) : String := "include-" ++ substr2 randomText

/-- The attribute names listed in `removeIncludeAttributes`. -/
def includeAttributes : List String :=
  ["data-include", "data-include-format", "data-include-replace", "data-include-id", "oninclude"]

/-- Function `removeIncludeAttributes(el)`: removes each listed attribute. -/
def removeIncludeAttributes (doc : List Node) (el : Path) : List Node :=
  includeAttributes.foldl (fun d attr => removeAttributeAt d el attr) doc

/-- The selector of `processResponse`: the attribute `data-include-id` has the
value `id`. -/
def tokenSelector (id : String) : Attrs → Bool :=
  attributeEqualsSelector "data-include-id" id

/-- Function `processResponse(rawData, id, url)`.  `Except.error (err, st)` means
that `err` was thrown when the state was `st`. -/
def processResponse (env : Env) (rawData id url : String) (st : State) :
    Except (Thrown × State) State :=
  match querySelector (tokenSelector id) st.document with
  | none => .error (.error env.nullMessage, st)
  | some el =>
    let flist := dataset st.document el "data-oninclude"
    let st1 := { st with transformCalls := st.transformCalls ++ [(rawData, flist, url)] }
    match env.runTransforms rawData flist url with
    | .error err => .error (err, st1)
    | .ok data =>
      let replace := (dataset st1.document el "data-include-replace").isSome
      -- the document after the switch, and whether `el` is still in it
      let injected : List Node × Bool :=
        if dataset st1.document el "data-include-format" = some "text" then
          if replace then (replaceWith st1.document el [.text data], false)
          else (setTextContent st1.document el data, true)
        else
          let d := setInnerHTML env.parseFragment st1.document el data
          if replace then (replaceWith d el (childNodes d el), false)
          else (d, true)
      .ok { st1 with document :=
        if injected.2 then removeIncludeAttributes injected.1 el else injected.1 }

/-- The message built in the `catch` block. -/
def errorMessage (url message : String) : String :=
  "`data-include` failed: `" ++ url ++ "` (" ++ message ++ "). See console for details."

/-- Synchronous part of the callback `async el => ...`, up to `await fetch(url)`,
for one scanned element.  The accumulator holds the state and the pipelines
suspended so far. -/
def includeElement (env : Env) (acc : State × List Pipeline) (el : Path) :
    State × List Pipeline :=
  match dataset acc.1.document el "data-include" with
  | none => acc
  | some url =>
    if url = "" then acc
    else
      let id := makeId (env.random acc.2.length)
      ({ acc.1 with
          document := setAttributeAt acc.1.document el "data-include-id" id
          fetched := acc.1.fetched ++ [url] },
       acc.2 ++ [{ el := el, url := url, id := id, index := acc.2.length }])

/-- The state in which `run()` starts on a document. -/
def initialState (doc : List Node) : State :=
  { document := doc, fetched := [], transformCalls := [], logged := [], published := [] }

/-- Synchronous phase of `run()`: query the includables and start every callback. -/
def scan (env : Env) (doc : List Node) : State × List Pipeline :=
  (querySelectorAll (hasAttributeSelector "data-include") doc).foldl
    (includeElement env) (initialState doc, [])

/-- Body of the `try` block once the fetch of the pipeline has settled. -/
def attempt (env : Env) (p : Pipeline) (st : State) : Except (Thrown × State) State :=
  match env.outcome p.index with
  | .rejected err => .error (err, st)
  | .bodyFailed err => .error (err, st)
  | .body text => processResponse env text p.id p.url st

/-- The host call `console.error("data-include failed for element: ", el, err)`:
the element reference and the error are recorded. -/
def consoleError (el : Path) (err : Thrown) (st : State) : State :=
  { st with logged := st.logged ++ [(el, err)] }

/-- Modelled from the spec: `pub("error", payload)` of `./pubsubhub.js`, which
is not among the sources: a fire-and-forget notification channel; the payloads
published on the `"error"` topic are recorded in order. -/
def pub (payload : String) (st : State) : State :=
  { st with published := st.published ++ [payload] }

/-- The `catch` block: build the message, log, publish.  When `err.message`
throws, the callback's promise rejects and nothing is logged or published. -/
def handleFailure (p : Pipeline) (err : Thrown) (st : State) : State × Settlement :=
  match err.messageText with
  | none => (st, .rejected)
  | some m => (pub (errorMessage p.url m) (consoleError p.el err st), .fulfilled)

/-- Rest of a callback after its fetch has settled. -/
def resume (env : Env) (p : Pipeline) (st : State) : State × Settlement :=
  match attempt env p st with
  | .ok st1 => (st1, .fulfilled)
  | .error (err, st1) => handleFailure p err st1

/-- Resume every pipeline, in the given order: `Promise.all` cancels nothing, so
each suspended callback runs to its end whatever the others did.  The flag
tells whether every callback's promise fulfilled so far. -/
def settle (env : Env) : List Pipeline → State × Bool → State × Bool
  | [], acc => acc
  | p :: rest, acc =>
    let r := resume env p acc.1
    settle env rest (r.1, acc.2 && decide (r.2 = .fulfilled))

/-- How the promise returned by `run()` settles. -/
inductive RunResult where
  | resolved
  | rejected
deriving DecidableEq, Repr

/-- The statement `await Promise.all(promisesToInclude)` with the pipelines
resumed in the given order: the aggregate promise resolves once every
callback's promise has fulfilled, and rejects as soon as one of them rejects,
while the later pipelines are still suspended.  The state is the one at that
moment. -/
def awaitAll (env : Env) : List Pipeline → State → State × RunResult
  | [], st => (st, .resolved)
  | p :: rest, st =>
    match resume env p st with
    | (st1, .fulfilled) => awaitAll env rest st1
    | (st1, .rejected) => (st1, .rejected)

/-- Function `run()`, with the pipelines resumed in `order`: the state at the
moment the returned promise settles, and how it settles. -/
def run (env : Env) (doc : List Node) (order : List Pipeline) : State × RunResult :=
  awaitAll env order (scan env doc).1

/-- The state once every pipeline started by `run()` has finished, with the
pipelines resumed in `order`.  When `run()` resolves this is the state at its
settlement; when it rejects, the remaining pipelines finish afterwards. -/
def completed (env : Env) (doc : List Node) (order : List Pipeline) : State :=
  (settle env order ((scan env doc).1, true)).1

/-- The pipelines `run()` creates on a document, in scan order. -/
def pipelines (env : Env) (doc : List Node) : List Pipeline := (scan env doc).2

/-! ## Auxiliary definitions -/

/-- Tag and attribute list of the element referenced by a path. -/
def elementAt (doc : List Node) (el : Path) : Option (String × Attrs) :=
  match nodeAt el doc with
  | some (.element t a _) => some (t, a)
  | _ => none

/-- Attribute list left by `removeIncludeAttributes`. -/
def stripIncludeAttributes (a : Attrs) : Attrs :=
  includeAttributes.foldl removeAttribute a

/-- The error with which the fetch or the body read of a pipeline fails, if it does. -/
def FetchOutcome.thrown : FetchOutcome → Option Thrown
  | .rejected err => some err
  | .bodyFailed err => some err
  | .body _ => none

/-- Nodes found in place of a directive element once `data` has been included,
by format and replace mode: the table of the content renderer, with the
attributes that `removeIncludeAttributes` leaves. -/
def includedNodes (parseFragment : String → String → List Node) (tag : String) (attrs : Attrs)
    (data : String) : List Node :=
  if getAttribute attrs "data-include-format" = some "text" then
    if (getAttribute attrs "data-include-replace").isSome then [.text data]
    else [.element tag (stripIncludeAttributes attrs) (if data = "" then [] else [.text data])]
  else
    if (getAttribute attrs "data-include-replace").isSome then parseFragment tag data
    else [.element tag (stripIncludeAttributes attrs) (parseFragment tag data)]

/-- The message a pipeline publishes when its fetch or body read fails, if any. -/
def failureMessage (env : Env) (p : Pipeline) : Option String :=
  ((env.outcome p.index).thrown.bind Thrown.messageText).map (errorMessage p.url)

/-- The path `p` moved past `k` nodes inserted in front of its forest. -/
def skip : Nat → Path → Path
  | 0, p => p
  | k + 1, p => Path.next (skip k p)

/-- Tags and attribute lists of the ancestors of the node referenced by a path,
outermost first, together with the node itself. -/
def lineage : Path → List Node → Option (List (String × Attrs) × Node)
  | _, [] => none
  | .here, n :: _ => some ([], n)
  | .next p, _ :: rest => lineage p rest
  | .down p, .element t a kids :: _ => (lineage p kids).map (fun r => ((t, a) :: r.1, r.2))
  | .down _, .text _ :: _ => none

/-- Paths of the ancestors of the node referenced by a path, outermost first. -/
def ancestorsOf : Path → List Path
  | .here => []
  | .next p => (ancestorsOf p).map Path.next
  | .down p => Path.here :: (ancestorsOf p).map Path.down

/-- Whether a node is an element whose attributes satisfy the selector. -/
def matchesAt (sel : Attrs → Bool) : Node → Bool
  | .text _ => false
  | .element _ a _ => sel a

/-- Somewhere in the document, below ancestors with exactly the tags and
attributes `anc`, there is a node that satisfies `Q`; when `uniq` is set, that
node is moreover the only one selected by `selT`. -/
def Holds (selT : Attrs → Bool) (Q : Node → Prop) (anc : List (String × Attrs)) (uniq : Bool)
    (doc : List Node) : Prop :=
  ∃ el n, lineage el doc = some (anc, n) ∧ Q n ∧ (uniq = true → selectForest selT doc = [el])

/-- What holds of the accumulator of the scan once the elements `vis` have been visited. -/
structure ScanInv (env : Env) (doc : List Node) (vis : List Path)
    (acc : State × List Pipeline) : Prop where
  els : ∀ q ∈ acc.2, q.el ∈ vis
  urls : ∀ q ∈ acc.2, dataset doc q.el "data-include" = some q.url ∧ q.url ≠ ""
  ids : ∀ q ∈ acc.2, q.id = makeId (env.random q.index)
  indices : acc.2.map Pipeline.index = List.range acc.2.length
  tagged : ∀ q ∈ acc.2, elementAt acc.1.document q.el =
    (elementAt doc q.el).map (fun ta => (ta.1, setAttribute ta.2 "data-include-id" q.id))
  untouched : ∀ x, (∀ q ∈ acc.2, q.el ≠ x) → elementAt acc.1.document x = elementAt doc x
  fetched : acc.1.fetched = acc.2.map Pipeline.url
  quiet : acc.1.transformCalls = [] ∧ acc.1.logged = [] ∧ acc.1.published = []
  nodup : (acc.2.map Pipeline.el).Nodup
  outside : ∀ x, (∀ q ∈ acc.2, q.el ≠ x ∧ x ∉ ancestorsOf q.el) →
    nodeAt x acc.1.document = nodeAt x doc
  complete : ∀ x ∈ vis, (∃ u, dataset doc x "data-include" = some u ∧ u ≠ "") →
    ∃ q ∈ acc.2, q.el = x

/-- No content included by the run carries a correlation token of the run: the
parsed form of whatever a pipeline's transform returns for the body it fetched
has no element whose `data-include-id` is a token of some pipeline. -/
def ContentCarriesNoToken (env : Env) (doc : List Node) : Prop :=
  ∀ q ∈ pipelines env doc, ∀ r ∈ pipelines env doc, ∀ text fl data tag,
    env.outcome q.index = .body text → env.runTransforms text fl q.url = .ok data →
    selectForest (tokenSelector r.id) (env.parseFragment tag data) = []

/-- The ancestors `anc` take no part in the run: none is a directive element with
a URL, and none carries in `data-include-id` a token of the run. -/
def AncestorsInert (env : Env) (doc : List Node) (anc : List (String × Attrs)) : Prop :=
  ∀ s ∈ anc,
    (getAttribute s.2 "data-include" = none ∨ getAttribute s.2 "data-include" = some "") ∧
    ∀ q ∈ pipelines env doc, getAttribute s.2 "data-include-id" ≠ some q.id

/-! ## Concrete documents and environments -/

/-- A toy fragment parser: it knows the markup of the examples and turns any
other string into a single text node. -/
def demoParse (_tag markup : String) : List Node :=
  if markup = "<b>hi</b>" then [.element "b" [] [.text "hi"]] else [.text markup]

/-- An environment in which every fetch rejects with the given value. -/
def rejectingEnv (err : Thrown) : Env :=
  { random := fun n => if n = 0 then "0.111" else "0.222"
    outcome := fun _ => .rejected err
    runTransforms := fun content _ _ => .ok content
    parseFragment := demoParse
    nullMessage := "el is null" }

/-- An environment in which the first fetch delivers `first` and every later one
`second`; transforms are the identity. -/
def deliveringEnv (first second : String) : Env :=
  { random := fun n => if n = 0 then "0.111" else "0.222"
    outcome := fun n => if n = 0 then .body first else .body second
    runTransforms := fun content _ _ => .ok content
    parseFragment := demoParse
    nullMessage := "el is null" }

/-- The document with the single element `div` that includes `url`. -/
def singleInclude (url : String) : List Node :=
  [.element "div" [("data-include", url)] []]

/-- Two sibling directive elements. -/
def twoIncludes : List Node :=
  [.element "div" [("data-include", "a.html")] [],
   .element "p" [("data-include", "b.html")] []]

/-- A directive element nested in another one. -/
def nestedIncludes : List Node :=
  [.element "div" [("data-include", "outer.html")]
    [.element "span" [("data-include", "inner.html")] []]]

/-- A directive element with a transform list. -/
def includeWithTransforms : List Node :=
  [.element "div" [("data-include", "a.html"), ("data-oninclude", "f")] []]

/-- An environment in which the first fetch rejects with `err` and every later
one delivers `text`; transforms are the identity. -/
def mixedEnv (err : Thrown) (text : String) : Env :=
  { random := fun n => if n = 0 then "0.111" else "0.222"
    outcome := fun n => if n = 0 then .rejected err else .body text
    runTransforms := fun content _ _ => .ok content
    parseFragment := demoParse
    nullMessage := "el is null" }

/-- An environment whose random source returns the same number at every draw;
the first fetch delivers "A" and every later one "B". -/
def constantRandomEnv : Env :=
  { random := fun _ => "0.111"
    outcome := fun n => if n = 0 then .body "A" else .body "B"
    runTransforms := fun content _ _ => .ok content
    parseFragment := demoParse
    nullMessage := "el is null" }

/-- An environment whose random source returns the same number at every draw;
the first fetch rejects with the error "404" and every later one delivers "B". -/
def collidingEnv : Env :=
  { random := fun _ => "0.111"
    outcome := fun n => if n = 0 then .rejected (.error "404") else .body "B"
    runTransforms := fun content _ _ => .ok content
    parseFragment := demoParse
    nullMessage := "el is null" }

/-- The element `span` that includes `x.txt` as text, in replace mode. -/
def textReplaceInclude : List Node :=
  [.element "span"
    [("data-include", "x.txt"), ("data-include-format", "text"), ("data-include-replace", "")]
    []]

/-- A text-replace directive element nested in an html directive element. -/
def nestedTextReplace : List Node :=
  [.element "div" [("data-include", "outer.html")]
    [.element "span"
      [("data-include", "x.txt"), ("data-include-format", "text"),
        ("data-include-replace", "")] []]]

/-- An element whose `data-include` is empty, around a directive element. -/
def emptyAroundInclude : List Node :=
  [.element "div" [("data-include", "")] [.element "p" [("data-include", "a.html")] []]]

/-- An element whose `data-include` is empty, followed by a directive element. -/
def emptyBesideInclude : List Node :=
  [.element "div" [("data-include", "")] [.text "kept"],
   .element "p" [("data-include", "a.html")] []]

/-- A directive element nested in another one, followed by a third directive
element. -/
def nestedThenSibling : List Node :=
  [.element "div" [("data-include", "outer.html")]
    [.element "span" [("data-include", "inner.html")] []],
   .element "p" [("data-include", "c.html")] []]

/-- An environment with three distinct draws in which the first fetch delivers
"OUTER", the second "INNER", and every later one rejects with `undefined`. -/
def lastRejectsEnv : Env :=
  { random := fun n => if n = 0 then "0.111" else if n = 1 then "0.222" else "0.333"
    outcome := fun n =>
      if n = 0 then .body "OUTER" else if n = 1 then .body "INNER" else .rejected .nullish
    runTransforms := fun content _ _ => .ok content
    parseFragment := demoParse
    nullMessage := "el is null" }

/-- An environment in which the first fetch delivers `text` and every later one
rejects with `err`; transforms are the identity. -/
def deliveredThenRejectedEnv (text : String) (err : Thrown) : Env :=
  { random := fun n => if n = 0 then "0.111" else "0.222"
    outcome := fun n => if n = 0 then .body text else .rejected err
    runTransforms := fun content _ _ => .ok content
    parseFragment := demoParse
    nullMessage := "el is null" }

/-- A text-replace directive element among siblings: a text node before it, a
directive element and a text node after it. -/
def textReplaceAmongSiblings : List Node :=
  [.text "before",
   .element "span"
     [("data-include", "x.txt"), ("data-include-format", "text"), ("data-include-replace", "")]
     [],
   .element "p" [("data-include", "bad.html")] [],
   .text "after"]

/-! ## Lemmas -/

/-! ### Attribute lists -/

theorem getAttribute_setAttribute_self (a : Attrs) (n v : String) :
    getAttribute (setAttribute a n v) n = some v := by
  induction a with
  | nil => simp [setAttribute, getAttribute]
  | cons kv rest ih =>
    obtain ⟨k, w⟩ := kv
    by_cases h : k = n
    · simp [setAttribute, getAttribute, h]
    · simp [setAttribute, getAttribute, h, ih]

theorem getAttribute_setAttribute_ne (a : Attrs) (n v m : String) (h : m ≠ n) :
    getAttribute (setAttribute a n v) m = getAttribute a m := by
  induction a with
  | nil => simp [setAttribute, getAttribute, h.symm]
  | cons kv rest ih =>
    obtain ⟨k, w⟩ := kv
    by_cases hk : k = n
    · subst hk
      simp [setAttribute, getAttribute, h.symm]
    · by_cases hm : k = m
      · subst hm
        simp [setAttribute, getAttribute, hk]
      · simp [setAttribute, getAttribute, hk, hm, ih]

theorem getAttribute_removeAttribute_self (a : Attrs) (n : String) :
    getAttribute (removeAttribute a n) n = none := by
  induction a with
  | nil => simp [removeAttribute, getAttribute]
  | cons kv rest ih =>
    obtain ⟨k, w⟩ := kv
    by_cases h : k = n
    · simpa [removeAttribute, h] using ih
    · simpa [removeAttribute, List.filter_cons, h, getAttribute] using ih

theorem getAttribute_removeAttribute_ne (a : Attrs) (n m : String) (h : m ≠ n) :
    getAttribute (removeAttribute a n) m = getAttribute a m := by
  induction a with
  | nil => simp [removeAttribute, getAttribute]
  | cons kv rest ih =>
    obtain ⟨k, w⟩ := kv
    by_cases hk : k = n
    · subst hk
      have hm : k ≠ m := fun e => h e.symm
      simpa [removeAttribute, getAttribute, hm, List.filter_cons] using ih
    · by_cases hm : k = m
      · subst hm
        simp [removeAttribute, List.filter_cons, hk, getAttribute]
      · simpa [removeAttribute, List.filter_cons, hk, getAttribute, hm] using ih

theorem removeAttribute_setAttribute_self (a : Attrs) (n v : String) :
    removeAttribute (setAttribute a n v) n = removeAttribute a n := by
  induction a with
  | nil => simp [setAttribute, removeAttribute]
  | cons kv rest ih =>
    obtain ⟨k, w⟩ := kv
    by_cases h : k = n
    · simp [setAttribute, removeAttribute, h]
    · simpa [setAttribute, removeAttribute, h, List.filter_cons] using ih

theorem removeAttribute_setAttribute_ne (a : Attrs) (n v m : String) (h : m ≠ n) :
    removeAttribute (setAttribute a n v) m = setAttribute (removeAttribute a m) n v := by
  induction a with
  | nil => simp [setAttribute, removeAttribute, h.symm]
  | cons kv rest ih =>
    obtain ⟨k, w⟩ := kv
    by_cases hk : k = n
    · subst hk
      simp [setAttribute, removeAttribute, h.symm, List.filter_cons]
    · by_cases hm : k = m
      · subst hm
        simpa [setAttribute, removeAttribute, hk, List.filter_cons] using ih
      · simpa [setAttribute, removeAttribute, hk, hm, List.filter_cons] using ih

theorem stripIncludeAttributes_setAttribute_id (a : Attrs) (v : String) :
    stripIncludeAttributes (setAttribute a "data-include-id" v) = stripIncludeAttributes a := by
  simp only [stripIncludeAttributes, includeAttributes, List.foldl]
  rw [removeAttribute_setAttribute_ne _ _ _ _ (by decide),
    removeAttribute_setAttribute_ne _ _ _ _ (by decide),
    removeAttribute_setAttribute_ne _ _ _ _ (by decide),
    removeAttribute_setAttribute_self]

/-! ### Paths -/

theorem dataset_eq_elementAt (doc : List Node) (el : Path) (name : String) :
    dataset doc el name = (elementAt doc el).bind (fun ta => getAttribute ta.2 name) := by
  unfold dataset elementAt
  cases h : nodeAt el doc with
  | none => rfl
  | some n => cases n <;> rfl

theorem elementAt_modifyAt_withAttributes (g : Attrs → Attrs) (q : Path) :
    ∀ (p : Path) (d : List Node),
      elementAt (modifyAt (withAttributes g) q d) p =
        if p = q then (elementAt d p).map (fun ta => (ta.1, g ta.2)) else elementAt d p := by
  induction q with
  | here =>
    intro p d
    cases d with
    | nil => cases p <;> simp [modifyAt, elementAt, nodeAt]
    | cons n rest =>
      cases n with
      | text s => cases p <;> simp [modifyAt, withAttributes, elementAt, nodeAt]
      | element t a kids => cases p <;> simp [modifyAt, withAttributes, elementAt, nodeAt]
  | next q ih =>
    intro p d
    cases d with
    | nil => cases p <;> simp [modifyAt, elementAt, nodeAt]
    | cons n rest =>
      cases p with
      | here => simp [modifyAt, elementAt, nodeAt]
      | next p =>
        have := ih p rest
        simpa [modifyAt, elementAt, nodeAt] using this
      | down p => cases n <;> simp [modifyAt, elementAt, nodeAt]
  | down q ih =>
    intro p d
    cases d with
    | nil => cases p <;> simp [modifyAt, elementAt, nodeAt]
    | cons n rest =>
      cases n with
      | text s => cases p <;> simp [modifyAt, elementAt, nodeAt]
      | element t a kids =>
        cases p with
        | here => simp [modifyAt, elementAt, nodeAt]
        | next p => simp [modifyAt, elementAt, nodeAt]
        | down p =>
          have := ih p kids
          simpa [modifyAt, elementAt, nodeAt] using this

theorem modifyAt_congr (f g : Node → List Node) (p : Path) :
    ∀ (d : List Node) (n : Node), nodeAt p d = some n → f n = g n →
      modifyAt f p d = modifyAt g p d := by
  induction p with
  | here =>
    intro d n h hfg
    cases d with
    | nil => simp [modifyAt]
    | cons m rest =>
      simp only [nodeAt, Option.some.injEq] at h
      subst h
      simp [modifyAt, hfg]
  | next p ih =>
    intro d n h hfg
    cases d with
    | nil => simp [modifyAt]
    | cons m rest =>
      simp only [nodeAt] at h
      simp [modifyAt, ih rest n h hfg]
  | down p ih =>
    intro d n h hfg
    cases d with
    | nil => simp [modifyAt]
    | cons m rest =>
      cases m with
      | text s => simp [modifyAt]
      | element t a kids =>
        simp only [nodeAt] at h
        simp [modifyAt, ih kids n h hfg]

theorem nodeAt_modifyAt_self (f : Node → List Node) (p : Path) :
    ∀ (d : List Node) (n m : Node), nodeAt p d = some n → f n = [m] →
      nodeAt p (modifyAt f p d) = some m := by
  induction p with
  | here =>
    intro d n m h hf
    cases d with
    | nil => simp [nodeAt] at h
    | cons x rest =>
      simp only [nodeAt, Option.some.injEq] at h
      subst h
      simp [modifyAt, hf, nodeAt]
  | next p ih =>
    intro d n m h hf
    cases d with
    | nil => simp [nodeAt] at h
    | cons x rest =>
      simp only [nodeAt] at h
      simpa [modifyAt, nodeAt] using ih rest n m h hf
  | down p ih =>
    intro d n m h hf
    cases d with
    | nil => simp [nodeAt] at h
    | cons x rest =>
      cases x with
      | text s => simp [nodeAt] at h
      | element t a kids =>
        simp only [nodeAt] at h
        simpa [modifyAt, nodeAt] using ih kids n m h hf

theorem nodeAt_of_elementAt (doc : List Node) (el : Path) (t : String) (a : Attrs)
    (h : elementAt doc el = some (t, a)) : ∃ kids, nodeAt el doc = some (.element t a kids) := by
  unfold elementAt at h
  cases hn : nodeAt el doc with
  | none => simp [hn] at h
  | some n =>
    cases n with
    | text s => simp [hn] at h
    | element t1 a1 kids =>
      simp only [hn, Option.some.injEq, Prod.mk.injEq] at h
      exact ⟨kids, by rw [h.1, h.2]⟩

theorem elementAt_of_nodeAt (doc : List Node) (el : Path) (t : String) (a : Attrs)
    (kids : List Node) (h : nodeAt el doc = some (.element t a kids)) :
    elementAt doc el = some (t, a) := by
  simp [elementAt, h]

theorem nodeAt_modifyAt_outside (g : Attrs → Attrs) (q : Path) :
    ∀ (x : Path) (d : List Node), x ≠ q → x ∉ ancestorsOf q →
      nodeAt x (modifyAt (withAttributes g) q d) = nodeAt x d := by
  induction q with
  | here =>
    intro x d hne _
    cases d with
    | nil => simp [modifyAt]
    | cons m rest =>
      cases x with
      | here => exact absurd rfl hne
      | next x0 => cases m <;> simp [modifyAt, withAttributes, nodeAt]
      | down x0 => cases m <;> simp [modifyAt, withAttributes, nodeAt]
  | next q ih =>
    intro x d hne hanc
    cases d with
    | nil => simp [modifyAt]
    | cons m rest =>
      cases x with
      | here => simp [modifyAt, nodeAt]
      | next x0 =>
        simp only [modifyAt, nodeAt]
        refine ih x0 rest (fun e => hne (by rw [e])) ?_
        intro hmem
        exact hanc (by simpa [ancestorsOf] using hmem)
      | down x0 => cases m <;> simp [modifyAt, nodeAt]
  | down q ih =>
    intro x d hne hanc
    cases d with
    | nil => simp [modifyAt]
    | cons m rest =>
      cases m with
      | text s => simp [modifyAt]
      | element t a kids =>
        cases x with
        | here => exact absurd (by simp [ancestorsOf]) hanc
        | next x0 => simp [modifyAt, nodeAt]
        | down x0 =>
          simp only [modifyAt, nodeAt]
          refine ih x0 kids (fun e => hne (by rw [e])) ?_
          intro hmem
          exact hanc (by simpa [ancestorsOf] using hmem)

/-! ### Selections -/

mutual
theorem mem_selectNode (sel : Attrs → Bool) :
    ∀ (n : Node) (p : Path),
      p ∈ selectNode sel n ↔ ∃ t a, elementAt [n] p = some (t, a) ∧ sel a = true
  | .text s, p => by
    cases p <;> simp [selectNode, elementAt, nodeAt]
  | .element t a kids, p => by
    have ih := mem_selectForest sel kids
    cases p with
    | here =>
      by_cases h : sel a = true
      · simp only [selectNode, elementAt, nodeAt, h, if_true, List.singleton_append,
          List.mem_cons, true_or, true_iff]
        exact ⟨t, a, rfl, h⟩
      · constructor
        · intro hp
          simp [selectNode, h] at hp
        · rintro ⟨t1, a1, h0, h1⟩
          simp only [elementAt, nodeAt, Option.some.injEq, Prod.mk.injEq] at h0
          rw [h0.2] at h
          exact absurd h1 h
    | next p =>
      by_cases h : sel a = true <;> simp [selectNode, elementAt, nodeAt, h]
    | down p =>
      have := ih p
      by_cases h : sel a = true <;>
        simpa [selectNode, elementAt, nodeAt, h] using this
theorem mem_selectForest (sel : Attrs → Bool) :
    ∀ (d : List Node) (p : Path),
      p ∈ selectForest sel d ↔ ∃ t a, elementAt d p = some (t, a) ∧ sel a = true
  | [], p => by
    cases p <;> simp [selectForest, elementAt, nodeAt]
  | n :: rest, p => by
    have ihn := mem_selectNode sel n
    have ihr := mem_selectForest sel rest
    cases p with
    | here =>
      have := ihn Path.here
      simpa [selectForest, elementAt, nodeAt] using this
    | next p =>
      have h1 := ihn (Path.next p)
      have h2 := ihr p
      simp only [elementAt, nodeAt] at h1 h2
      simp only [selectForest, List.mem_append, List.mem_map, elementAt, nodeAt]
      constructor
      · rintro (h | ⟨q, hq, hqp⟩)
        · obtain ⟨t, a, h, _⟩ := h1.1 h
          simp at h
        · cases hqp
          exact h2.1 hq
      · intro h
        exact Or.inr ⟨p, h2.2 h, rfl⟩
    | down p =>
      have h1 := ihn (Path.down p)
      have hnode : nodeAt (Path.down p) (n :: rest) = nodeAt (Path.down p) [n] := by
        cases n <;> rfl
      simp only [elementAt] at h1
      simp only [selectForest, List.mem_append, List.mem_map, elementAt, hnode]
      constructor
      · rintro (h | ⟨q, _, hqp⟩)
        · exact h1.1 h
        · cases hqp
      · intro h
        exact Or.inl (h1.2 h)
end

mutual
theorem selectNode_nodup (sel : Attrs → Bool) : ∀ n : Node, (selectNode sel n).Nodup
  | .text s => by simp [selectNode]
  | .element t a kids => by
    have ih := selectForest_nodup sel kids
    have hmap : ((selectForest sel kids).map Path.down).Nodup :=
      ih.map (fun x y h => by cases h; rfl)
    by_cases h : sel a = true
    · simp only [selectNode, h, if_true, List.singleton_append, List.nodup_cons]
      exact ⟨by simp, hmap⟩
    · simpa [selectNode, h] using hmap
theorem selectForest_nodup (sel : Attrs → Bool) : ∀ d : List Node, (selectForest sel d).Nodup
  | [] => by simp [selectForest]
  | n :: rest => by
    have ihn := selectNode_nodup sel n
    have ihr := selectForest_nodup sel rest
    have hmap : ((selectForest sel rest).map Path.next).Nodup :=
      ihr.map (fun x y h => by cases h; rfl)
    simp only [selectForest]
    refine List.Nodup.append ihn hmap ?_
    intro p hp hq
    obtain ⟨q, _, rfl⟩ := List.mem_map.1 hq
    obtain ⟨t, a, h, _⟩ := (mem_selectNode sel n _).1 hp
    simp [elementAt, nodeAt] at h
end

/-! ### The scan -/

theorem foldl_visited {α β : Type} (f : β → α → β) (Inv : List α → β → Prop)
    (hstep : ∀ vis b a, Inv vis b → a ∉ vis → Inv (vis ++ [a]) (f b a)) :
    ∀ (l vis : List α) (b : β), Inv vis b → (vis ++ l).Nodup → Inv (vis ++ l) (l.foldl f b) := by
  intro l
  induction l with
  | nil => intro vis b h _; simpa using h
  | cons a l ih =>
    intro vis b h hnd
    have ha : a ∉ vis := by
      intro hmem
      have := List.nodup_append.1 hnd
      exact this.2.2 hmem (List.mem_cons_self a l)
    have h1 := hstep vis b a h ha
    have h2 := ih (vis ++ [a]) (f b a) h1 (by simpa using hnd)
    simpa using h2

theorem scanInv_initial (env : Env) (doc : List Node) :
    ScanInv env doc [] (initialState doc, []) where
  els := by simp
  urls := by simp
  ids := by simp
  indices := by simp
  tagged := by simp
  untouched := by intro x _; rfl
  fetched := by simp [initialState]
  quiet := by simp [initialState]
  nodup := by simp
  outside := by intro x _; rfl
  complete := by simp

theorem scanInv_step (env : Env) (doc : List Node) (vis : List Path)
    (acc : State × List Pipeline) (x : Path) (h : ScanInv env doc vis acc) (hx : x ∉ vis) :
    ScanInv env doc (vis ++ [x]) (includeElement env acc x) := by
  have hne : ∀ q ∈ acc.2, q.el ≠ x := fun q hq e => hx (e ▸ h.els q hq)
  have hsame : dataset acc.1.document x "data-include" = dataset doc x "data-include" := by
    rw [dataset_eq_elementAt, dataset_eq_elementAt, h.untouched x hne]
  have hskip : (¬ ∃ u, dataset doc x "data-include" = some u ∧ u ≠ "") →
      ScanInv env doc (vis ++ [x]) acc := by
    intro hno
    refine { h with els := ?_, complete := ?_ }
    · intro q hq
      exact List.mem_append_left _ (h.els q hq)
    · intro y hy hsrc
      rcases List.mem_append.1 hy with hy | hy
      · exact h.complete y hy hsrc
      · simp only [List.mem_singleton] at hy
        subst hy
        exact absurd hsrc hno
  unfold includeElement
  rw [hsame]
  cases hd : dataset doc x "data-include" with
  | none => exact hskip (by simp [hd])
  | some url =>
    by_cases hurl : url = ""
    · simp only [hurl, if_true]
      exact hskip (by simp [hd, hurl])
    · simp only [hurl, if_false]
      refine ⟨?_, ?_, ?_, ?_, ?_, ?_, ?_, ?_, ?_, ?_, ?_⟩
      · intro q hq
        rcases List.mem_append.1 hq with hq | hq
        · exact List.mem_append_left _ (h.els q hq)
        · simp only [List.mem_singleton] at hq
          subst hq
          simp
      · intro q hq
        rcases List.mem_append.1 hq with hq | hq
        · exact h.urls q hq
        · simp only [List.mem_singleton] at hq
          subst hq
          exact ⟨hd, hurl⟩
      · intro q hq
        rcases List.mem_append.1 hq with hq | hq
        · exact h.ids q hq
        · simp only [List.mem_singleton] at hq
          subst hq
          rfl
      · simp [List.range_succ, h.indices]
      · intro q hq
        show elementAt (setAttributeAt acc.1.document x "data-include-id" _) q.el = _
        unfold setAttributeAt
        rw [elementAt_modifyAt_withAttributes]
        rcases List.mem_append.1 hq with hq | hq
        · rw [if_neg (hne q hq)]
          exact h.tagged q hq
        · simp only [List.mem_singleton] at hq
          subst hq
          simp only [if_true]
          rw [h.untouched x hne]
      · intro y hy
        show elementAt (setAttributeAt acc.1.document x "data-include-id" _) y = _
        unfold setAttributeAt
        rw [elementAt_modifyAt_withAttributes]
        have hyx : y ≠ x := by
          intro e
          exact hy _ (List.mem_append_right _ (List.mem_singleton_self _)) e.symm
        rw [if_neg hyx]
        exact h.untouched y (fun q hq => hy q (List.mem_append_left _ hq))
      · simp [h.fetched]
      · exact h.quiet
      · simp only [List.map_append, List.map_cons, List.map_nil]
        refine List.Nodup.append h.nodup (by simp) ?_
        intro p hp hq
        simp only [List.mem_singleton] at hq
        subst hq
        obtain ⟨q, hq, rfl⟩ := List.mem_map.1 hp
        exact hne q hq rfl
      · intro y hy
        show nodeAt y (setAttributeAt acc.1.document x "data-include-id" _) = _
        have hnew := hy _ (List.mem_append_right _ (List.mem_singleton_self _))
        unfold setAttributeAt
        rw [nodeAt_modifyAt_outside _ x y _ (fun e => hnew.1 e.symm) hnew.2]
        exact h.outside y (fun q hq => hy q (List.mem_append_left _ hq))
      · intro y hy hsrc
        rcases List.mem_append.1 hy with hy | hy
        · obtain ⟨q, hq, hqe⟩ := h.complete y hy hsrc
          exact ⟨q, List.mem_append_left _ hq, hqe⟩
        · simp only [List.mem_singleton] at hy
          subst hy
          exact ⟨_, List.mem_append_right _ (List.mem_singleton_self _), rfl⟩

theorem scanInv_scan (env : Env) (doc : List Node) :
    ScanInv env doc (querySelectorAll (hasAttributeSelector "data-include") doc) (scan env doc) := by
  have := foldl_visited (includeElement env) (ScanInv env doc) (scanInv_step env doc)
    (querySelectorAll (hasAttributeSelector "data-include") doc) [] (initialState doc, [])
    (scanInv_initial env doc) (by simpa [querySelectorAll] using selectForest_nodup _ doc)
  simpa [scan] using this

/-! ### The renderer -/

theorem modifyAt_modifyAt_of_nodeAt (f g : Node → List Node) (p : Path) :
    ∀ (d : List Node) (n m : Node), nodeAt p d = some n → f n = [m] →
      modifyAt g p (modifyAt f p d) = modifyAt (fun _ => g m) p d := by
  induction p with
  | here =>
    intro d n m h hf
    cases d with
    | nil => simp [nodeAt] at h
    | cons x rest =>
      simp only [nodeAt, Option.some.injEq] at h
      subst h
      simp [modifyAt, hf]
  | next p ih =>
    intro d n m h hf
    cases d with
    | nil => simp [nodeAt] at h
    | cons x rest =>
      simp only [nodeAt] at h
      simp [modifyAt, ih rest n m h hf]
  | down p ih =>
    intro d n m h hf
    cases d with
    | nil => simp [nodeAt] at h
    | cons x rest =>
      cases x with
      | text s => simp [nodeAt] at h
      | element t a kids =>
        simp only [nodeAt] at h
        simp [modifyAt, ih kids n m h hf]

theorem modifyAt_const_of_nodeAt (f : Node → List Node) (p : Path) (d : List Node) (n : Node)
    (h : nodeAt p d = some n) : modifyAt f p d = modifyAt (fun _ => f n) p d :=
  modifyAt_congr f (fun _ => f n) p d n h rfl

theorem removeIncludeAttributes_of_nodeAt (d : List Node) (el : Path) (t : String) (a : Attrs)
    (kids : List Node) (h : nodeAt el d = some (.element t a kids)) :
    removeIncludeAttributes d el =
      modifyAt (fun _ => [.element t (stripIncludeAttributes a) kids]) el d := by
  simp only [removeIncludeAttributes, includeAttributes, List.foldl, removeAttributeAt]
  rw [modifyAt_modifyAt_of_nodeAt _ _ el d _ _ h rfl]
  rw [modifyAt_modifyAt_of_nodeAt _ _ el d _ _ h rfl]
  rw [modifyAt_modifyAt_of_nodeAt _ _ el d _ _ h rfl]
  rw [modifyAt_modifyAt_of_nodeAt _ _ el d _ _ h rfl]
  rw [modifyAt_const_of_nodeAt _ el d _ h]
  rfl

theorem processResponse_located (env : Env) (rawData id url : String) (st : State) (el : Path)
    (tag : String) (attrs : Attrs) (data : String)
    (hq : querySelector (tokenSelector id) st.document = some el)
    (hel : elementAt st.document el = some (tag, attrs))
    (ht : env.runTransforms rawData (getAttribute attrs "data-oninclude") url = .ok data) :
    processResponse env rawData id url st = .ok
      { st with
        transformCalls :=
          st.transformCalls ++ [(rawData, getAttribute attrs "data-oninclude", url)]
        document := modifyAt (fun _ => includedNodes env.parseFragment tag attrs data) el
          st.document } := by
  obtain ⟨kids, hnode⟩ := nodeAt_of_elementAt _ _ _ _ hel
  have hds : ∀ name, dataset st.document el name = getAttribute attrs name := by
    intro name
    simp [dataset, hnode]
  unfold processResponse
  simp only [hq, hds, ht]
  congr 1
  by_cases hfmt : getAttribute attrs "data-include-format" = some "text"
  · by_cases hrep : (getAttribute attrs "data-include-replace").isSome = true
    · simp [hfmt, hrep, includedNodes, replaceWith]
    · simp only [hfmt, hrep, includedNodes, if_true, if_false, Bool.false_eq_true]
      have h1 : nodeAt el (setTextContent st.document el data) =
          some (.element tag attrs (if data = "" then [] else [.text data])) :=
        nodeAt_modifyAt_self _ el _ _ _ hnode rfl
      rw [removeIncludeAttributes_of_nodeAt _ el _ _ _ h1]
      unfold setTextContent
      rw [modifyAt_modifyAt_of_nodeAt _ _ el _ _ _ hnode rfl]
  · by_cases hrep : (getAttribute attrs "data-include-replace").isSome = true
    · simp only [hfmt, hrep, includedNodes, if_true, if_false]
      have h1 : nodeAt el (setInnerHTML env.parseFragment st.document el data) =
          some (.element tag attrs (env.parseFragment tag data)) :=
        nodeAt_modifyAt_self _ el _ _ _ hnode rfl
      simp only [replaceWith, childNodes, h1]
      unfold setInnerHTML
      rw [modifyAt_modifyAt_of_nodeAt _ _ el _ _ _ hnode rfl]
      simp
    · simp only [hfmt, hrep, includedNodes, if_true, if_false, Bool.false_eq_true]
      have h1 : nodeAt el (setInnerHTML env.parseFragment st.document el data) =
          some (.element tag attrs (env.parseFragment tag data)) :=
        nodeAt_modifyAt_self _ el _ _ _ hnode rfl
      rw [removeIncludeAttributes_of_nodeAt _ el _ _ _ h1]
      unfold setInnerHTML
      rw [modifyAt_modifyAt_of_nodeAt _ _ el _ _ _ hnode rfl]

/-! ### Settling pipelines -/

theorem attempt_of_thrown (env : Env) (p : Pipeline) (st : State) (err : Thrown)
    (h : (env.outcome p.index).thrown = some err) : attempt env p st = .error (err, st) := by
  unfold attempt
  cases ho : env.outcome p.index with
  | rejected e => simp [ho, FetchOutcome.thrown] at h; simp [h]
  | bodyFailed e => simp [ho, FetchOutcome.thrown] at h; simp [h]
  | body text => simp [ho, FetchOutcome.thrown] at h

theorem processResponse_frame (env : Env) (rawData id url : String) (st : State) :
    match processResponse env rawData id url st with
    | .ok st1 => st1.fetched = st.fetched ∧ st1.logged = st.logged ∧ st1.published = st.published
    | .error (_, st1) =>
      st1.fetched = st.fetched ∧ st1.logged = st.logged ∧ st1.published = st.published ∧
        st1.document = st.document := by
  unfold processResponse
  cases querySelector (tokenSelector id) st.document with
  | none => simp
  | some el =>
    simp only
    cases env.runTransforms rawData (dataset st.document el "data-oninclude") url with
    | error err => simp
    | ok data => simp

theorem attempt_frame (env : Env) (p : Pipeline) (st : State) :
    match attempt env p st with
    | .ok st1 => st1.fetched = st.fetched ∧ st1.logged = st.logged ∧ st1.published = st.published
    | .error (_, st1) =>
      st1.fetched = st.fetched ∧ st1.logged = st.logged ∧ st1.published = st.published ∧
        st1.document = st.document := by
  unfold attempt
  cases env.outcome p.index with
  | rejected e => simp
  | bodyFailed e => simp
  | body text => exact processResponse_frame env text p.id p.url st

theorem settle_append (env : Env) (l1 l2 : List Pipeline) :
    ∀ acc : State × Bool, settle env (l1 ++ l2) acc = settle env l2 (settle env l1 acc) := by
  induction l1 with
  | nil => intro acc; rfl
  | cons p l1 ih => intro acc; simp [settle, ih]

theorem resume_of_thrown (env : Env) (p : Pipeline) (st : State) (err : Thrown)
    (h : (env.outcome p.index).thrown = some err) :
    resume env p st = handleFailure p err st := by
  simp [resume, attempt_of_thrown env p st err h]

theorem resume_published_extends (env : Env) (p : Pipeline) (st : State) :
    ∃ extra, (resume env p st).1.published = st.published ++ extra := by
  have hf := attempt_frame env p st
  unfold resume
  cases ha : attempt env p st with
  | ok st1 =>
    rw [ha] at hf
    exact ⟨[], by simp [hf.2.2]⟩
  | error e =>
    obtain ⟨err, st1⟩ := e
    rw [ha] at hf
    simp only at hf
    unfold handleFailure
    cases hm : err.messageText with
    | none => exact ⟨[], by simp [hm, hf.2.2.1]⟩
    | some m => exact ⟨[errorMessage p.url m], by simp [hm, hf.2.2.1, pub, consoleError]⟩

theorem settle_published_extends (env : Env) (l : List Pipeline) :
    ∀ acc : State × Bool, ∃ extra, (settle env l acc).1.published = acc.1.published ++ extra := by
  induction l with
  | nil => intro acc; exact ⟨[], by simp [settle]⟩
  | cons p l ih =>
    intro acc
    obtain ⟨e1, h1⟩ := resume_published_extends env p acc.1
    obtain ⟨e2, h2⟩ := ih ((resume env p acc.1).1, acc.2 && decide ((resume env p acc.1).2 = .fulfilled))
    refine ⟨e1 ++ e2, ?_⟩
    simp only [settle]
    rw [h2]
    simp [h1]

theorem settle_of_failures (env : Env) (l : List Pipeline)
    (hl : ∀ q ∈ l, (env.outcome q.index).thrown.isSome = true) :
    ∀ acc : State × Bool,
      (settle env l acc).1.document = acc.1.document ∧
      (settle env l acc).1.fetched = acc.1.fetched ∧
      (settle env l acc).1.transformCalls = acc.1.transformCalls ∧
      (settle env l acc).1.published = acc.1.published ++ l.filterMap (failureMessage env) := by
  induction l with
  | nil => intro acc; simp [settle]
  | cons p l ih =>
    intro acc
    have hp := hl p (List.mem_cons_self p l)
    obtain ⟨err, herr⟩ := Option.isSome_iff_exists.1 hp
    have hrest := ih (fun q hq => hl q (List.mem_cons_of_mem p hq))
    simp only [settle]
    rw [resume_of_thrown env p acc.1 err herr]
    specialize hrest ((handleFailure p err acc.1).1,
      acc.2 && decide ((handleFailure p err acc.1).2 = .fulfilled))
    obtain ⟨h1, h2, h3, h4⟩ := hrest
    rw [h1, h2, h3, h4]
    unfold handleFailure
    cases hm : err.messageText with
    | none => simp [failureMessage, herr, hm]
    | some m => simp [failureMessage, herr, hm, pub, consoleError]

theorem resume_fulfilled_of_readable (env : Env) (p : Pipeline) (st : State)
    (hfetch : ∀ n err, (env.outcome n).thrown = some err → err.messageText ≠ none)
    (htrans : ∀ raw fl url err, env.runTransforms raw fl url = .error err → err.messageText ≠ none) :
    (resume env p st).2 = .fulfilled := by
  unfold resume
  cases ha : attempt env p st with
  | ok st1 => rfl
  | error e =>
    obtain ⟨err, st1⟩ := e
    have herr : err.messageText ≠ none := by
      unfold attempt at ha
      cases ho : env.outcome p.index with
      | rejected e =>
        simp only [ho, Except.error.injEq, Prod.mk.injEq] at ha
        exact hfetch p.index err (by simp [ho, FetchOutcome.thrown, ha.1])
      | bodyFailed e =>
        simp only [ho, Except.error.injEq, Prod.mk.injEq] at ha
        exact hfetch p.index err (by simp [ho, FetchOutcome.thrown, ha.1])
      | body text =>
        simp only [ho] at ha
        unfold processResponse at ha
        cases hq : querySelector (tokenSelector p.id) st.document with
        | none =>
          simp only [hq, Except.error.injEq, Prod.mk.injEq] at ha
          rw [← ha.1]
          simp [Thrown.messageText]
        | some el =>
          simp only [hq] at ha
          cases ht : env.runTransforms text (dataset st.document el "data-oninclude") p.url with
          | error e2 =>
            simp only [ht, Except.error.injEq, Prod.mk.injEq] at ha
            rw [← ha.1]
            exact htrans _ _ _ _ ht
          | ok data => simp [ht] at ha
    simp only [handleFailure]
    cases hm : err.messageText with
    | none => exact absurd hm herr
    | some m => rfl

theorem settle_flag_of_readable (env : Env) (l : List Pipeline)
    (hfetch : ∀ n err, (env.outcome n).thrown = some err → err.messageText ≠ none)
    (htrans : ∀ raw fl url err, env.runTransforms raw fl url = .error err → err.messageText ≠ none) :
    ∀ acc : State × Bool, (settle env l acc).2 = acc.2 := by
  induction l with
  | nil => intro acc; rfl
  | cons p l ih =>
    intro acc
    simp only [settle]
    rw [ih, resume_fulfilled_of_readable env p acc.1 hfetch htrans]
    simp

/-! ### Pipelines of a run -/

theorem makeId_injective (s t : String) (h : makeId s = makeId t) : substr2 s = substr2 t := by
  unfold makeId at h
  have h1 := congrArg String.data h
  simp only [String.data_append] at h1
  exact String.ext (List.append_cancel_left h1)

theorem pipelines_index_lt (env : Env) (doc : List Node) (q : Pipeline)
    (hq : q ∈ pipelines env doc) : q.index < (pipelines env doc).length := by
  have h := (scanInv_scan env doc).indices
  have hm : q.index ∈ (pipelines env doc).map Pipeline.index := List.mem_map_of_mem _ hq
  unfold pipelines at hm ⊢
  rw [h] at hm
  exact List.mem_range.1 hm

theorem pipelines_index_nodup (env : Env) (doc : List Node) :
    ((pipelines env doc).map Pipeline.index).Nodup := by
  unfold pipelines
  rw [(scanInv_scan env doc).indices]
  exact List.nodup_range _

theorem pipelines_nodup (env : Env) (doc : List Node) : (pipelines env doc).Nodup :=
  List.Nodup.of_map _ (pipelines_index_nodup env doc)

theorem pipelines_id_nodup (env : Env) (doc : List Node)
    (hdraws : ∀ i j, i < j → j < (pipelines env doc).length →
      substr2 (env.random i) ≠ substr2 (env.random j)) :
    ((pipelines env doc).map Pipeline.id).Nodup := by
  refine List.Nodup.map_on ?_ (pipelines_nodup env doc)
  intro x hx y hy hxy
  have hidx := (scanInv_scan env doc).ids
  have hx1 : x.id = makeId (env.random x.index) := hidx x hx
  have hy1 : y.id = makeId (env.random y.index) := hidx y hy
  rw [hx1, hy1] at hxy
  have hsub := makeId_injective _ _ hxy
  have hlx := pipelines_index_lt env doc x hx
  have hly := pipelines_index_lt env doc y hy
  have hi : x.index = y.index := by
    rcases Nat.lt_trichotomy x.index y.index with h | h | h
    · exact absurd hsub (hdraws _ _ h hly)
    · exact h
    · exact absurd hsub.symm (hdraws _ _ h hlx)
  exact List.inj_on_of_nodup_map (pipelines_index_nodup env doc) hx hy hi

theorem eq_singleton_of_nodup {α : Type} (l : List α) (a : α) (hnd : l.Nodup) (ha : a ∈ l)
    (hall : ∀ b ∈ l, b = a) : l = [a] := by
  cases l with
  | nil => simp at ha
  | cons x rest =>
    have hx : x = a := hall x (List.mem_cons_self x rest)
    subst hx
    cases rest with
    | nil => rfl
    | cons y rest2 =>
      have hy : y = x := hall y (by simp)
      subst hy
      simp at hnd

theorem scanned_carriers (env : Env) (doc : List Node) (q : Pipeline)
    (hq : q ∈ pipelines env doc)
    (hids : ((pipelines env doc).map Pipeline.id).Nodup)
    (hfresh : ∀ x, (∀ r ∈ pipelines env doc, r.el ≠ x) →
      dataset doc x "data-include-id" ≠ some q.id)
    (hvalid : (elementAt doc q.el).isSome = true) :
    querySelectorAll (tokenSelector q.id) (scan env doc).1.document =
      [q.el] := by
  have inv := scanInv_scan env doc
  unfold querySelectorAll
  refine eq_singleton_of_nodup _ _ (selectForest_nodup _ _) ?_ ?_
  · rw [mem_selectForest]
    obtain ⟨ta, hta⟩ := Option.isSome_iff_exists.1 hvalid
    refine ⟨ta.1, setAttribute ta.2 "data-include-id" q.id, ?_, ?_⟩
    · rw [inv.tagged q hq, hta]
      rfl
    · simp [tokenSelector, attributeEqualsSelector, getAttribute_setAttribute_self]
  · intro y hy
    rw [mem_selectForest] at hy
    obtain ⟨t, a, hya, hsel⟩ := hy
    simp only [tokenSelector, attributeEqualsSelector, decide_eq_true_eq] at hsel
    by_cases hpipe : ∃ r ∈ pipelines env doc, r.el = y
    · obtain ⟨r, hr, hry⟩ := hpipe
      have htag := inv.tagged r hr
      rw [hry, hya] at htag
      cases hd : elementAt doc y with
      | none => simp [hd] at htag
      | some ta =>
        simp only [hd, Option.map_some', Option.some.injEq, Prod.mk.injEq] at htag
        rw [htag.2, getAttribute_setAttribute_self] at hsel
        have hrq : r = q :=
          List.inj_on_of_nodup_map hids hr hq (Option.some.inj hsel)
        rw [← hry, hrq]
    · have hno : ∀ r ∈ pipelines env doc, r.el ≠ y := fun r hr e => hpipe ⟨r, hr, e⟩
      have hsame := inv.untouched y hno
      have hds : dataset doc y "data-include-id" = some q.id := by
        rw [dataset_eq_elementAt, ← hsame, hya]
        exact hsel
      exact absurd hds (hfresh y hno)

theorem pipeline_element_valid (env : Env) (doc : List Node) (q : Pipeline)
    (hq : q ∈ pipelines env doc) : (elementAt doc q.el).isSome = true := by
  have h := ((scanInv_scan env doc).urls q hq).1
  rw [dataset_eq_elementAt] at h
  cases hd : elementAt doc q.el with
  | none => simp [hd] at h
  | some ta => rfl

/-! ### Shape of selections -/

theorem selectNode_not_next (sel : Attrs → Bool) (m : Node) (e : Path) :
    Path.next e ∉ selectNode sel m := by
  intro h
  obtain ⟨t, a, h1, _⟩ := (mem_selectNode sel m _).1 h
  simp [elementAt, nodeAt] at h1

theorem selectForest_cons_nil (sel : Attrs → Bool) (m : Node) (rest : List Node) :
    selectForest sel (m :: rest) = [] ↔ selectNode sel m = [] ∧ selectForest sel rest = [] := by
  simp [selectForest]

theorem selectNode_element_nil (sel : Attrs → Bool) (t : String) (a : Attrs) (kids : List Node) :
    selectNode sel (.element t a kids) = [] ↔ sel a = false ∧ selectForest sel kids = [] := by
  by_cases h : sel a = true <;> simp [selectNode, h]

theorem sel_cons_next (sel : Attrs → Bool) (m : Node) (rest : List Node) (e : Path)
    (h : selectForest sel (m :: rest) = [Path.next e]) :
    selectNode sel m = [] ∧ selectForest sel rest = [e] := by
  simp only [selectForest] at h
  cases h1 : selectNode sel m with
  | nil =>
    rw [h1] at h
    refine ⟨rfl, ?_⟩
    cases h2 : selectForest sel rest with
    | nil => rw [h2] at h; simp at h
    | cons y ys =>
      rw [h2] at h
      simp only [List.nil_append, List.map_cons, List.cons.injEq, Path.next.injEq,
        List.map_eq_nil_iff] at h
      rw [h.1, h.2]
  | cons y ys =>
    rw [h1] at h
    simp only [List.cons_append, List.cons.injEq] at h
    have : Path.next e ∈ selectNode sel m := by rw [h1, h.1]; simp
    exact absurd this (selectNode_not_next sel m e)

theorem sel_cons_head (sel : Attrs → Bool) (m : Node) (rest : List Node) (p : Path)
    (hp : ∀ e, p ≠ Path.next e) (h : selectForest sel (m :: rest) = [p]) :
    selectNode sel m = [p] ∧ selectForest sel rest = [] := by
  simp only [selectForest] at h
  cases h1 : selectNode sel m with
  | nil =>
    rw [h1] at h
    cases h2 : selectForest sel rest with
    | nil => rw [h2] at h; simp at h
    | cons y ys =>
      rw [h2] at h
      simp only [List.nil_append, List.map_cons, List.cons.injEq] at h
      exact absurd h.1.symm (hp y)
  | cons y ys =>
    rw [h1] at h
    simp only [List.cons_append, List.cons.injEq, List.append_eq_nil, List.map_eq_nil_iff] at h
    rw [h.1, h.2.1]
    exact ⟨rfl, h.2.2⟩

theorem sel_cons_here (sel : Attrs → Bool) (m : Node) (rest : List Node)
    (h : selectForest sel (m :: rest) = [Path.here]) :
    ∃ t a kids, m = .element t a kids ∧ sel a = true ∧ selectForest sel kids = [] ∧
      selectForest sel rest = [] := by
  obtain ⟨h1, h2⟩ := sel_cons_head sel m rest _ (by intro e; simp) h
  cases m with
  | text s => simp [selectNode] at h1
  | element t a kids =>
    refine ⟨t, a, kids, rfl, ?_⟩
    by_cases hs : sel a = true
    · simp only [selectNode, hs, if_true, List.singleton_append, List.cons.injEq, true_and,
        List.map_eq_nil_iff] at h1
      exact ⟨hs, h1, h2⟩
    · simp only [selectNode, hs, List.nil_append] at h1
      cases hk : selectForest sel kids with
      | nil => rw [hk] at h1; simp at h1
      | cons y ys => rw [hk] at h1; simp at h1

theorem sel_cons_down (sel : Attrs → Bool) (m : Node) (rest : List Node) (e : Path)
    (h : selectForest sel (m :: rest) = [Path.down e]) :
    ∃ t a kids, m = .element t a kids ∧ sel a = false ∧ selectForest sel kids = [e] ∧
      selectForest sel rest = [] := by
  obtain ⟨h1, h2⟩ := sel_cons_head sel m rest _ (by intro e; simp) h
  cases m with
  | text s => simp [selectNode] at h1
  | element t a kids =>
    refine ⟨t, a, kids, rfl, ?_⟩
    by_cases hs : sel a = true
    · simp [selectNode, hs] at h1
    · have hs' : sel a = false := by simpa using hs
      cases hk : selectForest sel kids with
      | nil => simp [selectNode, hs', hk] at h1
      | cons y ys =>
        simp only [selectNode, hs', hk, Bool.false_eq_true, if_false, List.nil_append,
          List.map_cons, List.cons.injEq, Path.down.injEq, List.map_eq_nil_iff] at h1
        rw [h1.1, h1.2]
        exact ⟨hs', rfl, h2⟩

theorem qs_here (sel : Attrs → Bool) (m : Node) (rest : List Node)
    (h : querySelector sel (m :: rest) = some Path.here) :
    ∃ t a kids, m = .element t a kids ∧ sel a = true := by
  cases m with
  | text s =>
    simp only [querySelector, selectForest, selectNode, List.nil_append, List.head?_map] at h
    cases hq : (selectForest sel rest).head? <;> simp [hq] at h
  | element t a kids =>
    refine ⟨t, a, kids, rfl, ?_⟩
    by_contra hs
    simp only [querySelector, selectForest, selectNode, hs, List.nil_append, List.head?_append,
      List.head?_map] at h
    cases hk : (selectForest sel kids).head? <;>
      cases hq : (selectForest sel rest).head? <;> simp [hk, hq] at h

theorem qs_down (sel : Attrs → Bool) (m : Node) (rest : List Node) (x0 : Path)
    (h : querySelector sel (m :: rest) = some (Path.down x0)) :
    ∃ t a kids, m = .element t a kids ∧ sel a = false ∧ querySelector sel kids = some x0 := by
  cases m with
  | text s =>
    simp only [querySelector, selectForest, selectNode, List.nil_append, List.head?_map] at h
    cases hq : (selectForest sel rest).head? <;> simp [hq] at h
  | element t a kids =>
    refine ⟨t, a, kids, rfl, ?_⟩
    by_cases hs : sel a = true
    · simp [querySelector, selectForest, selectNode, hs] at h
    · simp only [querySelector, selectForest, selectNode, hs, List.nil_append,
        List.head?_append, List.head?_map] at h
      refine ⟨by simpa using hs, ?_⟩
      unfold querySelector
      cases hk : (selectForest sel kids).head? with
      | none =>
        rw [hk] at h
        cases hq : (selectForest sel rest).head? <;> simp [hq] at h
      | some y =>
        rw [hk] at h
        simp at h
        rw [h]

theorem qs_next (sel : Attrs → Bool) (m : Node) (rest : List Node) (x0 : Path)
    (h : querySelector sel (m :: rest) = some (Path.next x0)) :
    selectNode sel m = [] ∧ querySelector sel rest = some x0 := by
  cases h1 : selectNode sel m with
  | nil =>
    refine ⟨rfl, ?_⟩
    simp only [querySelector, selectForest, h1, List.nil_append, List.head?_map] at h
    unfold querySelector
    cases hq : (selectForest sel rest).head? with
    | none => simp [hq] at h
    | some y =>
      rw [hq] at h
      simp at h
      rw [h]
  | cons y ys =>
    simp only [querySelector, selectForest, h1, List.cons_append, List.head?_cons,
      Option.some.injEq] at h
    have : Path.next x0 ∈ selectNode sel m := by rw [h1, h]; simp
    exact absurd this (selectNode_not_next sel m x0)

/-! ### Selections, lineages and substitution -/

theorem selectForest_append (sel : Attrs → Bool) (pre rest : List Node) :
    selectForest sel (pre ++ rest) =
      selectForest sel pre ++ (selectForest sel rest).map (skip pre.length) := by
  induction pre with
  | nil =>
    simp only [List.nil_append, selectForest, List.length_nil]
    have : skip 0 = id := by funext p; rfl
    simp [this]
  | cons m pre ih =>
    have hskip : Path.next ∘ skip pre.length = skip (pre.length + 1) := by funext p; rfl
    show selectForest sel (m :: (pre ++ rest)) = _
    simp only [selectForest, ih, List.map_append, List.map_map, List.append_assoc,
      List.length_cons, hskip]

theorem lineage_append (pre rest : List Node) (el : Path) :
    lineage (skip pre.length el) (pre ++ rest) = lineage el rest := by
  induction pre with
  | nil => rfl
  | cons m pre ih => simpa [skip, lineage] using ih

theorem nodeAt_of_lineage (el : Path) :
    ∀ (doc : List Node) (anc : List (String × Attrs)) (n : Node),
      lineage el doc = some (anc, n) → nodeAt el doc = some n := by
  induction el with
  | here =>
    intro doc anc n h
    cases doc with
    | nil => simp [lineage] at h
    | cons m rest =>
      simp only [lineage, Option.some.injEq, Prod.mk.injEq] at h
      simp [nodeAt, h.2]
  | next el ih =>
    intro doc anc n h
    cases doc with
    | nil => simp [lineage] at h
    | cons m rest => exact ih rest anc n h
  | down el ih =>
    intro doc anc n h
    cases doc with
    | nil => simp [lineage] at h
    | cons m rest =>
      cases m with
      | text s => simp [lineage] at h
      | element t a kids =>
        simp only [lineage, Option.map_eq_some', Prod.mk.injEq] at h
        obtain ⟨r, hr, _, hn⟩ := h
        rw [← hn]
        exact ih kids r.1 r.2 hr

theorem lineage_modifyAt_self (m : Node) (el : Path) :
    ∀ (doc : List Node) (anc : List (String × Attrs)) (n : Node),
      lineage el doc = some (anc, n) →
      lineage el (modifyAt (fun _ => [m]) el doc) = some (anc, m) := by
  induction el with
  | here =>
    intro doc anc n h
    cases doc with
    | nil => simp [lineage] at h
    | cons x rest =>
      simp only [lineage, Option.some.injEq, Prod.mk.injEq] at h
      simp [modifyAt, lineage, h.1]
  | next el ih =>
    intro doc anc n h
    cases doc with
    | nil => simp [lineage] at h
    | cons x rest => simpa [modifyAt, lineage] using ih rest anc n h
  | down el ih =>
    intro doc anc n h
    cases doc with
    | nil => simp [lineage] at h
    | cons x rest =>
      cases x with
      | text s => simp [lineage] at h
      | element t a kids =>
        simp only [lineage, Option.map_eq_some', Prod.mk.injEq] at h
        obtain ⟨r, hr, ha, hn⟩ := h
        have := ih kids r.1 r.2 hr
        simp [modifyAt, lineage, this, ha]

theorem selectForest_modifyAt_free (sel : Attrs → Bool) (nodes : List Node)
    (hnodes : selectForest sel nodes = []) (x : Path) :
    ∀ doc : List Node, selectForest sel doc = [] →
      selectForest sel (modifyAt (fun _ => nodes) x doc) = [] := by
  induction x with
  | here =>
    intro doc h
    cases doc with
    | nil => simpa [modifyAt] using h
    | cons m rest =>
      rw [selectForest_cons_nil] at h
      simp [modifyAt, selectForest_append, hnodes, h.2]
  | next x ih =>
    intro doc h
    cases doc with
    | nil => simpa [modifyAt] using h
    | cons m rest =>
      rw [selectForest_cons_nil] at h
      simp only [modifyAt]
      rw [selectForest_cons_nil]
      exact ⟨h.1, ih rest h.2⟩
  | down x ih =>
    intro doc h
    cases doc with
    | nil => simpa [modifyAt] using h
    | cons m rest =>
      cases m with
      | text s => simpa [modifyAt] using h
      | element t a kids =>
        rw [selectForest_cons_nil, selectNode_element_nil] at h
        simp only [modifyAt]
        rw [selectForest_cons_nil, selectNode_element_nil]
        exact ⟨⟨h.1.1, ih kids h.1.2⟩, h.2⟩

theorem selectForest_modifyAt_unique (sel : Attrs → Bool) (nodes : List Node)
    (hnodes : selectForest sel nodes = []) (el : Path) :
    ∀ doc : List Node, selectForest sel doc = [el] →
      selectForest sel (modifyAt (fun _ => nodes) el doc) = [] := by
  induction el with
  | here =>
    intro doc h
    cases doc with
    | nil => simp [selectForest] at h
    | cons m rest =>
      obtain ⟨t, a, kids, rfl, _, _, hrest⟩ := sel_cons_here sel m rest h
      simp [modifyAt, selectForest_append, hnodes, hrest]
  | next el ih =>
    intro doc h
    cases doc with
    | nil => simp [selectForest] at h
    | cons m rest =>
      obtain ⟨h1, h2⟩ := sel_cons_next sel m rest el h
      simp only [modifyAt]
      rw [selectForest_cons_nil]
      exact ⟨h1, ih rest h2⟩
  | down el ih =>
    intro doc h
    cases doc with
    | nil => simp [selectForest] at h
    | cons m rest =>
      obtain ⟨t, a, kids, rfl, hs, hk, hrest⟩ := sel_cons_down sel m rest el h
      simp only [modifyAt]
      rw [selectForest_cons_nil, selectNode_element_nil]
      exact ⟨⟨hs, ih kids hk⟩, hrest⟩

/-! ### One inclusion elsewhere in the tree -/

theorem lineage_head_congr (el : Path) (hel : ∀ e, el ≠ Path.next e) (m : Node)
    (rest rest' : List Node) : lineage el (m :: rest') = lineage el (m :: rest) := by
  cases el with
  | here => rfl
  | next e => exact absurd rfl (hel e)
  | down e => cases m <;> rfl

theorem step_preserves (selQ selT : Attrs → Bool) (nodes : List Node) (Q : Node → Prop)
    (hnodes : selectForest selT nodes = [])
    (hroot : ∀ n, Q n → matchesAt selQ n = false)
    (hinner : ∀ t a kids x0, Q (.element t a kids) → querySelector selQ kids = some x0 →
      Q (.element t a (modifyAt (fun _ => nodes) x0 kids))) (x : Path) :
    ∀ (doc : List Node) (anc : List (String × Attrs)) (el : Path) (n : Node),
      querySelector selQ doc = some x →
      (∀ s ∈ anc, selQ s.2 = false) →
      lineage el doc = some (anc, n) → Q n →
      ∃ el' n', lineage el' (modifyAt (fun _ => nodes) x doc) = some (anc, n') ∧ Q n' ∧
        (selectForest selT doc = [el] →
          selectForest selT (modifyAt (fun _ => nodes) x doc) = [el']) := by
  induction x with
  | here =>
    intro doc anc el n hq hanc hlin hQ
    cases doc with
    | nil => simp [lineage] at hlin
    | cons m rest =>
      obtain ⟨t, a, kids, rfl, hsel⟩ := qs_here selQ m rest hq
      cases el with
      | here =>
        simp only [lineage, Option.some.injEq, Prod.mk.injEq] at hlin
        have h := hroot _ hQ
        rw [← hlin.2] at h
        simp [matchesAt, hsel] at h
      | down el0 =>
        simp only [lineage, Option.map_eq_some'] at hlin
        obtain ⟨r, _, hpair⟩ := hlin
        have h := hanc (t, a) (by rw [← (Prod.mk.inj hpair).1]; simp)
        simp [hsel] at h
      | next el0 =>
        simp only [lineage] at hlin
        refine ⟨skip nodes.length el0, n, ?_, hQ, ?_⟩
        · simp only [modifyAt]
          rw [lineage_append]
          exact hlin
        · intro hT
          obtain ⟨_, h2⟩ := sel_cons_next selT _ rest el0 hT
          simp [modifyAt, selectForest_append, hnodes, h2]
  | next x0 ih =>
    intro doc anc el n hq hanc hlin hQ
    cases doc with
    | nil => simp [lineage] at hlin
    | cons m rest =>
      obtain ⟨_, hq0⟩ := qs_next selQ m rest x0 hq
      cases el with
      | here =>
        refine ⟨.here, n, ?_, hQ, ?_⟩
        · simpa [modifyAt, lineage] using hlin
        · intro hT
          obtain ⟨h1, h2⟩ := sel_cons_head selT m rest .here (by intro e; simp) hT
          simp only [modifyAt, selectForest]
          rw [h1, selectForest_modifyAt_free selT nodes hnodes x0 rest h2]
          rfl
      | down el0 =>
        refine ⟨.down el0, n, ?_, hQ, ?_⟩
        · simp only [modifyAt]
          rw [lineage_head_congr (.down el0) (by intro e; simp) m rest]
          exact hlin
        · intro hT
          obtain ⟨h1, h2⟩ := sel_cons_head selT m rest (.down el0) (by intro e; simp) hT
          simp only [modifyAt, selectForest]
          rw [h1, selectForest_modifyAt_free selT nodes hnodes x0 rest h2]
          rfl
      | next el0 =>
        simp only [lineage] at hlin
        obtain ⟨el', n', h1, h2, h3⟩ := ih rest anc el0 n hq0 hanc hlin hQ
        refine ⟨.next el', n', by simpa [modifyAt, lineage] using h1, h2, ?_⟩
        intro hT
        obtain ⟨ha, hb⟩ := sel_cons_next selT m rest el0 hT
        simp [modifyAt, selectForest, ha, h3 hb]
  | down x0 ih =>
    intro doc anc el n hq hanc hlin hQ
    cases doc with
    | nil => simp [lineage] at hlin
    | cons m rest =>
      obtain ⟨t, a, kids, rfl, hsel, hq0⟩ := qs_down selQ m rest x0 hq
      cases el with
      | here =>
        simp only [lineage, Option.some.injEq, Prod.mk.injEq] at hlin
        obtain ⟨hanc0, hn⟩ := hlin
        subst hn
        refine ⟨.here, .element t a (modifyAt (fun _ => nodes) x0 kids), ?_,
          hinner t a kids x0 hQ hq0, ?_⟩
        · simp [modifyAt, lineage, hanc0]
        · intro hT
          obtain ⟨t1, a1, kids1, heq, hs1, hk1, hr1⟩ := sel_cons_here selT _ rest hT
          cases heq
          simp [modifyAt, selectForest, selectNode, hs1, hr1,
            selectForest_modifyAt_free selT nodes hnodes x0 kids hk1]
      | down el0 =>
        simp only [lineage, Option.map_eq_some'] at hlin
        obtain ⟨r, hr, hpair⟩ := hlin
        obtain ⟨hanc0, hn⟩ := Prod.mk.inj hpair
        have hanc' : ∀ s ∈ r.1, selQ s.2 = false := by
          intro s hs
          exact hanc s (by rw [← hanc0]; exact List.mem_cons_of_mem _ hs)
        obtain ⟨el', n', h1, h2, h3⟩ := ih kids r.1 el0 r.2 hq0 hanc' hr (hn ▸ hQ)
        refine ⟨.down el', n', ?_, h2, ?_⟩
        · simp [modifyAt, lineage, h1, hanc0]
        · intro hT
          obtain ⟨t1, a1, kids1, heq, hs1, hk1, hr1⟩ := sel_cons_down selT _ rest el0 hT
          cases heq
          simp [modifyAt, selectForest, selectNode, hs1, hr1, h3 hk1]
      | next el0 =>
        simp only [lineage] at hlin
        refine ⟨.next el0, n, by simpa [modifyAt, lineage] using hlin, hQ, ?_⟩
        intro hT
        obtain ⟨ha, hb⟩ := sel_cons_next selT _ rest el0 hT
        rw [selectNode_element_nil] at ha
        simp [modifyAt, selectForest, selectNode, ha.1, hb,
          selectForest_modifyAt_free selT nodes hnodes x0 kids ha.2]

/-! ### What one pipeline does to the document -/

theorem handleFailure_document (p : Pipeline) (err : Thrown) (st : State) :
    (handleFailure p err st).1.document = st.document := by
  unfold handleFailure
  cases err.messageText <;> rfl

theorem elementAt_of_querySelector (sel : Attrs → Bool) (doc : List Node) (x : Path)
    (h : querySelector sel doc = some x) :
    ∃ t a, elementAt doc x = some (t, a) ∧ sel a = true := by
  unfold querySelector at h
  obtain ⟨ys, hys⟩ := List.head?_eq_some_iff.1 h
  exact (mem_selectForest sel doc x).1 (by rw [hys]; simp)

theorem resume_document_cases (env : Env) (p : Pipeline) (st : State) :
    (resume env p st).1.document = st.document ∨
    ∃ x tag attrs text data,
      env.outcome p.index = .body text ∧
      querySelector (tokenSelector p.id) st.document = some x ∧
      elementAt st.document x = some (tag, attrs) ∧
      env.runTransforms text (getAttribute attrs "data-oninclude") p.url = .ok data ∧
      resume env p st =
        ({ st with
            transformCalls :=
              st.transformCalls ++ [(text, getAttribute attrs "data-oninclude", p.url)]
            document := modifyAt (fun _ => includedNodes env.parseFragment tag attrs data) x
              st.document }, Settlement.fulfilled) := by
  cases ho : env.outcome p.index with
  | rejected e =>
    left
    rw [resume_of_thrown env p st e (by simp [ho, FetchOutcome.thrown]), handleFailure_document]
  | bodyFailed e =>
    left
    rw [resume_of_thrown env p st e (by simp [ho, FetchOutcome.thrown]), handleFailure_document]
  | body text =>
    cases hq : querySelector (tokenSelector p.id) st.document with
    | none =>
      left
      have : processResponse env text p.id p.url st = .error (.error env.nullMessage, st) := by
        simp [processResponse, hq]
      simp [resume, attempt, ho, this, handleFailure_document]
    | some x =>
      obtain ⟨tag, attrs, hel, _⟩ := elementAt_of_querySelector _ _ _ hq
      cases ht : env.runTransforms text (getAttribute attrs "data-oninclude") p.url with
      | error e =>
        left
        obtain ⟨kids, hnode⟩ := nodeAt_of_elementAt _ _ _ _ hel
        have hds : dataset st.document x "data-oninclude" =
            getAttribute attrs "data-oninclude" := by simp [dataset, hnode]
        have : processResponse env text p.id p.url st = .error (e,
            { st with transformCalls :=
                st.transformCalls ++ [(text, getAttribute attrs "data-oninclude", p.url)] }) := by
            simp [processResponse, hq, hds, ht]
        simp [resume, attempt, ho, this, handleFailure_document]
      | ok data =>
        right
        refine ⟨x, tag, attrs, text, data, rfl, rfl, hel, ht, ?_⟩
        have := processResponse_located env text p.id p.url st x tag attrs data hq hel ht
        simp [resume, attempt, ho, this]

theorem getAttribute_stripIncludeAttributes_id (a : Attrs) :
    getAttribute (stripIncludeAttributes a) "data-include-id" = none := by
  simp only [stripIncludeAttributes, includeAttributes, List.foldl]
  rw [getAttribute_removeAttribute_ne _ _ _ (by decide), getAttribute_removeAttribute_self]

theorem tokenSelector_strip (id : String) (a : Attrs) :
    tokenSelector id (stripIncludeAttributes a) = false := by
  simp [tokenSelector, attributeEqualsSelector, getAttribute_stripIncludeAttributes_id]

theorem includedNodes_free (id : String) (parseFragment : String → String → List Node)
    (tag : String) (attrs : Attrs) (data : String)
    (h : selectForest (tokenSelector id) (parseFragment tag data) = []) :
    selectForest (tokenSelector id) (includedNodes parseFragment tag attrs data) = [] := by
  unfold includedNodes
  split
  · split
    · simp [selectForest, selectNode]
    · by_cases hd : data = "" <;>
        simp [selectForest, selectNode, tokenSelector_strip, hd]
  · split
    · exact h
    · simp [selectForest, selectNode, tokenSelector_strip, h]

theorem holds_resume (env : Env) (selT : Attrs → Bool) (Q : Node → Prop)
    (anc : List (String × Attrs)) (uniq : Bool) (q : Pipeline) (st : State)
    (hnodes : ∀ tag attrs text data, env.outcome q.index = .body text →
      env.runTransforms text (getAttribute attrs "data-oninclude") q.url = .ok data →
      selectForest selT (includedNodes env.parseFragment tag attrs data) = [])
    (hroot : ∀ n, Q n → matchesAt (tokenSelector q.id) n = false)
    (hinner : ∀ nodes t a kids x0, Q (.element t a kids) →
      querySelector (tokenSelector q.id) kids = some x0 →
      Q (.element t a (modifyAt (fun _ => nodes) x0 kids)))
    (hanc : ∀ s ∈ anc, tokenSelector q.id s.2 = false)
    (h : Holds selT Q anc uniq st.document) :
    Holds selT Q anc uniq (resume env q st).1.document := by
  rcases resume_document_cases env q st with hsame | ⟨x, tag, attrs, text, data, ho, hq, _, ht, hres⟩
  · rw [hsame]; exact h
  · rw [hres]
    obtain ⟨el, n, hlin, hQ, hU⟩ := h
    obtain ⟨el', n', h1, h2, h3⟩ := step_preserves (tokenSelector q.id) selT
      (includedNodes env.parseFragment tag attrs data) Q (hnodes tag attrs text data ho ht) hroot
      (hinner _) x st.document anc el n hq hanc hlin hQ
    exact ⟨el', n', h1, h2, fun hu => h3 (hU hu)⟩

theorem holds_settle (env : Env) (selT : Attrs → Bool) (Q : Node → Prop)
    (anc : List (String × Attrs)) (uniq : Bool) (l : List Pipeline)
    (hnodes : ∀ q ∈ l, ∀ tag attrs text data, env.outcome q.index = .body text →
      env.runTransforms text (getAttribute attrs "data-oninclude") q.url = .ok data →
      selectForest selT (includedNodes env.parseFragment tag attrs data) = [])
    (hroot : ∀ q ∈ l, ∀ n, Q n → matchesAt (tokenSelector q.id) n = false)
    (hinner : ∀ q ∈ l, ∀ nodes t a kids x0, Q (.element t a kids) →
      querySelector (tokenSelector q.id) kids = some x0 →
      Q (.element t a (modifyAt (fun _ => nodes) x0 kids)))
    (hanc : ∀ q ∈ l, ∀ s ∈ anc, tokenSelector q.id s.2 = false) :
    ∀ acc : State × Bool, Holds selT Q anc uniq acc.1.document →
      Holds selT Q anc uniq (settle env l acc).1.document := by
  induction l with
  | nil => intro acc h; exact h
  | cons q l ih =>
    intro acc h
    simp only [settle]
    refine ih (fun r hr => hnodes r (List.mem_cons_of_mem _ hr))
      (fun r hr => hroot r (List.mem_cons_of_mem _ hr))
      (fun r hr => hinner r (List.mem_cons_of_mem _ hr))
      (fun r hr => hanc r (List.mem_cons_of_mem _ hr)) _ ?_
    exact holds_resume env selT Q anc uniq q acc.1 (hnodes q (List.mem_cons_self _ _))
      (hroot q (List.mem_cons_self _ _)) (hinner q (List.mem_cons_self _ _))
      (hanc q (List.mem_cons_self _ _)) h

theorem free_resume (env : Env) (selT : Attrs → Bool) (q : Pipeline) (st : State)
    (hnodes : ∀ tag attrs text data, env.outcome q.index = .body text →
      env.runTransforms text (getAttribute attrs "data-oninclude") q.url = .ok data →
      selectForest selT (includedNodes env.parseFragment tag attrs data) = [])
    (h : selectForest selT st.document = []) :
    selectForest selT (resume env q st).1.document = [] := by
  rcases resume_document_cases env q st with hsame | ⟨x, tag, attrs, text, data, ho, _, _, ht, hres⟩
  · rw [hsame]; exact h
  · rw [hres]
    exact selectForest_modifyAt_free selT _ (hnodes tag attrs text data ho ht) x _ h

theorem free_settle (env : Env) (selT : Attrs → Bool) (l : List Pipeline)
    (hnodes : ∀ q ∈ l, ∀ tag attrs text data, env.outcome q.index = .body text →
      env.runTransforms text (getAttribute attrs "data-oninclude") q.url = .ok data →
      selectForest selT (includedNodes env.parseFragment tag attrs data) = []) :
    ∀ acc : State × Bool, selectForest selT acc.1.document = [] →
      selectForest selT (settle env l acc).1.document = [] := by
  induction l with
  | nil => intro acc h; exact h
  | cons q l ih =>
    intro acc h
    simp only [settle]
    exact ih (fun r hr => hnodes r (List.mem_cons_of_mem _ hr)) _
      (free_resume env selT q acc.1 (hnodes q (List.mem_cons_self _ _)) h)

/-! ### Lineage and the scan -/

theorem lineage_iff (el : Path) :
    ∀ (doc : List Node) (anc : List (String × Attrs)) (n : Node),
      lineage el doc = some (anc, n) ↔
        nodeAt el doc = some n ∧ (ancestorsOf el).map (elementAt doc) = anc.map some := by
  induction el with
  | here =>
    intro doc anc n
    cases doc with
    | nil => simp [lineage, nodeAt]
    | cons m rest =>
      simp only [lineage, nodeAt, ancestorsOf, List.map_nil, Option.some.injEq, Prod.mk.injEq]
      constructor
      · rintro ⟨h1, h2⟩
        exact ⟨h2, by simp [← h1]⟩
      · rintro ⟨h1, h2⟩
        refine ⟨?_, h1⟩
        cases anc with
        | nil => rfl
        | cons s anc => simp at h2
  | next el ih =>
    intro doc anc n
    cases doc with
    | nil => simp [lineage, nodeAt]
    | cons m rest =>
      have := ih rest anc n
      simpa [lineage, nodeAt, ancestorsOf, List.map_map, Function.comp_def, elementAt]
        using this
  | down el ih =>
    intro doc anc n
    cases doc with
    | nil => simp [lineage, nodeAt]
    | cons m rest =>
      cases m with
      | text s => simp [lineage, nodeAt]
      | element t a kids =>
        simp only [lineage, nodeAt, ancestorsOf, List.map_cons, List.map_map,
          Option.map_eq_some']
        constructor
        · rintro ⟨r, hr, hpair⟩
          obtain ⟨h1, h2⟩ := Prod.mk.inj hpair
          obtain ⟨h3, h4⟩ := (ih kids r.1 r.2).1 hr
          refine ⟨by rw [← h2]; exact h3, ?_⟩
          rw [← h1]
          simp only [List.map_cons, List.cons.injEq]
          refine ⟨by simp [elementAt, nodeAt], ?_⟩
          rw [← h4]
          simp [Function.comp_def, elementAt, nodeAt]
        · rintro ⟨h1, h2⟩
          cases anc with
          | nil => simp at h2
          | cons s anc =>
            simp only [List.map_cons, List.cons.injEq] at h2
            obtain ⟨h3, h4⟩ := h2
            have h5 : (ancestorsOf el).map (elementAt kids) = anc.map some := by
              rw [← h4]
              simp [Function.comp_def, elementAt, nodeAt]
            refine ⟨(anc, n), (ih kids anc n).2 ⟨h1, h5⟩, ?_⟩
            simp only [elementAt, nodeAt, Option.some.injEq] at h3
            simp [h3]

theorem no_pipeline_at (env : Env) (doc : List Node) (y : Path) (s : String × Attrs)
    (hy : elementAt doc y = some s)
    (hs : getAttribute s.2 "data-include" = none ∨ getAttribute s.2 "data-include" = some "") :
    ∀ q ∈ pipelines env doc, q.el ≠ y := by
  intro q hq e
  obtain ⟨h1, h2⟩ := (scanInv_scan env doc).urls q hq
  rw [e, dataset_eq_elementAt, hy] at h1
  change getAttribute s.2 "data-include" = some q.url at h1
  rcases hs with hs | hs
  · rw [hs] at h1; simp at h1
  · rw [hs] at h1
    exact h2 (Option.some.inj h1).symm

theorem ancestors_scan (env : Env) (doc : List Node) (el : Path) (anc : List (String × Attrs))
    (n : Node) (hlin : lineage el doc = some (anc, n))
    (hanc : ∀ s ∈ anc, getAttribute s.2 "data-include" = none ∨
      getAttribute s.2 "data-include" = some "") :
    (ancestorsOf el).map (elementAt (scan env doc).1.document) = anc.map some := by
  obtain ⟨_, h2⟩ := (lineage_iff el doc anc n).1 hlin
  rw [← h2]
  apply List.map_congr_left
  intro y hy
  have hmem : elementAt doc y ∈ anc.map some := by
    rw [← h2]
    exact List.mem_map_of_mem _ hy
  obtain ⟨s, hs, hsy⟩ := List.mem_map.1 hmem
  exact (scanInv_scan env doc).untouched y
    (no_pipeline_at env doc y s hsy.symm (hanc s hs))

theorem lineage_scan_pipeline (env : Env) (doc : List Node) (p : Pipeline)
    (hp : p ∈ pipelines env doc) (anc : List (String × Attrs)) (tag : String) (attrs : Attrs)
    (kids : List Node) (hlin : lineage p.el doc = some (anc, .element tag attrs kids))
    (hanc : ∀ s ∈ anc, getAttribute s.2 "data-include" = none ∨
      getAttribute s.2 "data-include" = some "") :
    ∃ kids1, lineage p.el (scan env doc).1.document =
      some (anc, .element tag (setAttribute attrs "data-include-id" p.id) kids1) := by
  have hnode := nodeAt_of_lineage _ _ _ _ hlin
  have hel := elementAt_of_nodeAt _ _ _ _ _ hnode
  have htag := (scanInv_scan env doc).tagged p hp
  rw [hel] at htag
  obtain ⟨kids1, hk⟩ := nodeAt_of_elementAt _ _ _ _ htag
  exact ⟨kids1, (lineage_iff _ _ _ _).2 ⟨hk, ancestors_scan env doc p.el anc _ hlin hanc⟩⟩

/-! ### A pipeline among the others -/

theorem id_ne_of_unique (env : Env) (doc : List Node) (p q : Pipeline)
    (hp : p ∈ pipelines env doc) (hq : q ∈ pipelines env doc) (hne : q ≠ p)
    (hunique : querySelectorAll (tokenSelector p.id) (scan env doc).1.document = [p.el]) :
    q.id ≠ p.id := by
  intro hid
  have inv := scanInv_scan env doc
  obtain ⟨ta, hta⟩ := Option.isSome_iff_exists.1 (pipeline_element_valid env doc q hq)
  have hmem : q.el ∈ selectForest (tokenSelector p.id) (scan env doc).1.document := by
    rw [mem_selectForest]
    refine ⟨ta.1, setAttribute ta.2 "data-include-id" q.id, ?_, ?_⟩
    · rw [inv.tagged q hq, hta]; rfl
    · simp [tokenSelector, attributeEqualsSelector, getAttribute_setAttribute_self, hid]
  unfold querySelectorAll at hunique
  rw [hunique, List.mem_singleton] at hmem
  exact hne (List.inj_on_of_nodup_map inv.nodup hq hp hmem)

theorem includedNodes_setAttribute_id (parseFragment : String → String → List Node)
    (tag : String) (attrs : Attrs) (v data : String) :
    includedNodes parseFragment tag (setAttribute attrs "data-include-id" v) data =
      includedNodes parseFragment tag attrs data := by
  unfold includedNodes
  rw [getAttribute_setAttribute_ne _ _ _ _ (by decide : "data-include-format" ≠ "data-include-id"),
    getAttribute_setAttribute_ne _ _ _ _ (by decide : "data-include-replace" ≠ "data-include-id"),
    stripIncludeAttributes_setAttribute_id]

theorem split_order (env : Env) (doc : List Node) (order : List Pipeline) (p : Pipeline)
    (hperm : order.Perm (pipelines env doc)) (hp : p ∈ pipelines env doc) :
    ∃ pre post, order = pre ++ p :: post ∧
      (∀ q ∈ pre, q ∈ pipelines env doc ∧ q ≠ p) ∧
      (∀ q ∈ post, q ∈ pipelines env doc ∧ q ≠ p) := by
  obtain ⟨pre, post, rfl⟩ := List.append_of_mem (hperm.mem_iff.2 hp)
  have hnd : (pre ++ p :: post).Nodup := hperm.nodup_iff.2 (pipelines_nodup env doc)
  refine ⟨pre, post, rfl, ?_, ?_⟩
  · intro q hq
    refine ⟨hperm.subset (by simp [hq]), ?_⟩
    rintro rfl
    have := (List.nodup_append.1 hnd).2.2 hq
    exact this (by simp)
  · intro q hq
    refine ⟨hperm.subset (by simp [hq]), ?_⟩
    rintro rfl
    have := (List.nodup_cons.1 (List.nodup_append.1 hnd).2.1).1
    exact this hq

theorem free_of_content (env : Env) (doc : List Node) (hcontent : ContentCarriesNoToken env doc)
    (q r : Pipeline) (hq : q ∈ pipelines env doc) (hr : r ∈ pipelines env doc) :
    ∀ tag attrs text data, env.outcome q.index = .body text →
      env.runTransforms text (getAttribute attrs "data-oninclude") q.url = .ok data →
      selectForest (tokenSelector r.id) (includedNodes env.parseFragment tag attrs data) = [] := by
  intro tag attrs text data ho ht
  exact includedNodes_free r.id _ tag attrs data (hcontent q hq r hr text _ data tag ho ht)

theorem shell_holds_settle (env : Env) (doc : List Node) (selT : Attrs → Bool)
    (hselT : ∀ q ∈ pipelines env doc, ∀ tag attrs text data, env.outcome q.index = .body text →
      env.runTransforms text (getAttribute attrs "data-oninclude") q.url = .ok data →
      selectForest selT (includedNodes env.parseFragment tag attrs data) = [])
    (anc : List (String × Attrs)) (tag : String) (attrs : Attrs) (uniq : Bool)
    (l : List Pipeline)
    (hl : ∀ q ∈ l, q ∈ pipelines env doc ∧ getAttribute attrs "data-include-id" ≠ some q.id)
    (hanc : AncestorsInert env doc anc) :
    ∀ acc : State × Bool,
      Holds selT (fun n => ∃ kids, n = .element tag attrs kids) anc uniq acc.1.document →
      Holds selT (fun n => ∃ kids, n = .element tag attrs kids) anc uniq
        (settle env l acc).1.document := by
  apply holds_settle
  · intro q hq
    exact hselT q (hl q hq).1
  · rintro q hq n ⟨kids, rfl⟩
    simp [matchesAt, tokenSelector, attributeEqualsSelector, (hl q hq).2]
  · rintro q _ nodes t a kids x0 ⟨kids0, h0⟩ _
    cases h0
    exact ⟨_, rfl⟩
  · intro q hq s hs
    simp [tokenSelector, attributeEqualsSelector, (hanc s hs).2 q (hl q hq).1]

theorem node_holds_settle (env : Env) (doc : List Node) (anc : List (String × Attrs))
    (N : Node) (l : List Pipeline)
    (hl : ∀ q ∈ l, q ∈ pipelines env doc ∧ selectForest (tokenSelector q.id) [N] = [])
    (hcontent : ContentCarriesNoToken env doc)
    (hanc : AncestorsInert env doc anc) :
    ∀ acc : State × Bool,
      (∃ el, lineage el acc.1.document = some (anc, N)) →
      ∃ el, lineage el (settle env l acc).1.document = some (anc, N) := by
  intro acc ⟨el, hel⟩
  cases hlne : l with
  | nil => exact ⟨el, by simpa [settle] using hel⟩
  | cons q0 l0 =>
    have hq0 : q0 ∈ pipelines env doc := (hl q0 (by simp [hlne])).1
    have := holds_settle env (tokenSelector q0.id) (fun n => n = N) anc false l
      (fun q hq => free_of_content env doc hcontent q q0 (hl q hq).1 hq0)
      (by
        rintro q hq n rfl
        have h := (hl q hq).2
        cases n with
        | text s => rfl
        | element t a kids =>
          rw [selectForest_cons_nil, selectNode_element_nil] at h
          exact h.1.1)
      (by
        rintro q hq nodes t a kids x0 h0 hx
        have h := (hl q hq).2
        rw [← h0, selectForest_cons_nil, selectNode_element_nil] at h
        simp [querySelector, h.1.2] at hx)
      (fun q hq s hs => by
        simp [tokenSelector, attributeEqualsSelector, (hanc s hs).2 q (hl q hq).1])
      acc ⟨el, N, hel, rfl, by simp⟩
    obtain ⟨el', n', h1, h2, _⟩ := this
    rw [hlne] at h1
    exact ⟨el', by rw [h1, h2]⟩

/-! ### One element through the whole run -/

theorem shell_before_turn (env : Env) (doc : List Node) (p : Pipeline)
    (hp : p ∈ pipelines env doc) (anc : List (String × Attrs)) (tag : String) (attrs : Attrs)
    (kids : List Node) (_hlin : lineage p.el doc = some (anc, .element tag attrs kids))
    (hanc : AncestorsInert env doc anc)
    (hunique : querySelectorAll (tokenSelector p.id) (scan env doc).1.document = [p.el])
    (hcontent : ContentCarriesNoToken env doc) (l : List Pipeline)
    (hl : ∀ q ∈ l, q ∈ pipelines env doc ∧ q ≠ p) :
    ∀ acc : State × Bool,
      Holds (tokenSelector p.id)
        (fun n => ∃ k, n = .element tag (setAttribute attrs "data-include-id" p.id) k) anc true
        acc.1.document →
      Holds (tokenSelector p.id)
        (fun n => ∃ k, n = .element tag (setAttribute attrs "data-include-id" p.id) k) anc true
        (settle env l acc).1.document := by
  apply shell_holds_settle env doc (tokenSelector p.id)
    (fun q hq => free_of_content env doc hcontent q p hq hp)
  · intro q hq
    refine ⟨(hl q hq).1, ?_⟩
    rw [getAttribute_setAttribute_self]
    intro h
    exact id_ne_of_unique env doc p q hp (hl q hq).1 (hl q hq).2 hunique (Option.some.inj h).symm
  · exact hanc

theorem shell_after_scan (env : Env) (doc : List Node) (p : Pipeline)
    (hp : p ∈ pipelines env doc) (anc : List (String × Attrs)) (tag : String) (attrs : Attrs)
    (kids : List Node) (hlin : lineage p.el doc = some (anc, .element tag attrs kids))
    (hanc : AncestorsInert env doc anc)
    (hunique : querySelectorAll (tokenSelector p.id) (scan env doc).1.document = [p.el]) :
    Holds (tokenSelector p.id)
      (fun n => ∃ k, n = .element tag (setAttribute attrs "data-include-id" p.id) k) anc true
      (scan env doc).1.document := by
  obtain ⟨kids1, h1⟩ := lineage_scan_pipeline env doc p hp anc tag attrs kids hlin
    (fun s hs => (hanc s hs).1)
  exact ⟨p.el, _, h1, ⟨kids1, rfl⟩, fun _ => hunique⟩

theorem include_single (env : Env) (doc : List Node) (order : List Pipeline) (p : Pipeline)
    (anc : List (String × Attrs)) (tag : String) (attrs : Attrs) (kids : List Node)
    (text data : String) (N : Node)
    (hperm : order.Perm (pipelines env doc)) (hp : p ∈ pipelines env doc)
    (hlin : lineage p.el doc = some (anc, .element tag attrs kids))
    (hanc : AncestorsInert env doc anc)
    (hunique : querySelectorAll (tokenSelector p.id) (scan env doc).1.document = [p.el])
    (hcontent : ContentCarriesNoToken env doc)
    (hbody : env.outcome p.index = .body text)
    (htrans : env.runTransforms text (getAttribute attrs "data-oninclude") p.url = .ok data)
    (hN : includedNodes env.parseFragment tag attrs data = [N]) :
    (∃ el, lineage el (completed env doc order).document = some (anc, N)) ∧
    querySelectorAll (tokenSelector p.id) (completed env doc order).document = [] := by
  obtain ⟨pre, post, rfl, hpre, hpost⟩ := split_order env doc order p hperm hp
  have h0 := shell_after_scan env doc p hp anc tag attrs kids hlin hanc hunique
  have h1 := shell_before_turn env doc p hp anc tag attrs kids hlin hanc hunique hcontent pre hpre
    ((scan env doc).1, true) h0
  obtain ⟨el, n, hl, ⟨k, rfl⟩, hU⟩ := h1
  have hq : querySelector (tokenSelector p.id)
      (settle env pre ((scan env doc).1, true)).1.document = some el := by
    unfold querySelector
    rw [hU rfl]
    rfl
  have hel := elementAt_of_nodeAt _ _ _ _ _ (nodeAt_of_lineage _ _ _ _ hl)
  have htrans' : env.runTransforms text
      (getAttribute (setAttribute attrs "data-include-id" p.id) "data-oninclude") p.url =
      .ok data := by
    rw [getAttribute_setAttribute_ne _ _ _ _ (by decide)]
    exact htrans
  have hproc := processResponse_located env text p.id p.url
    (settle env pre ((scan env doc).1, true)).1 el tag _ data hq hel htrans'
  rw [includedNodes_setAttribute_id, hN] at hproc
  have hfreeN : ∀ q ∈ pipelines env doc, selectForest (tokenSelector q.id) [N] = [] := by
    intro q hq
    have := free_of_content env doc hcontent p q hp hq tag attrs text data hbody htrans
    rwa [hN] at this
  have hres : resume env p (settle env pre ((scan env doc).1, true)).1 =
      ({ (settle env pre ((scan env doc).1, true)).1 with
          transformCalls := (settle env pre ((scan env doc).1, true)).1.transformCalls ++
            [(text, getAttribute (setAttribute attrs "data-include-id" p.id) "data-oninclude",
              p.url)]
          document := modifyAt (fun _ => [N]) el
            (settle env pre ((scan env doc).1, true)).1.document }, Settlement.fulfilled) := by
    simp [resume, attempt, hbody, hproc]
  unfold completed
  simp only [settle_append, settle, hres]
  constructor
  · apply node_holds_settle env doc anc N post
      (fun q hq => ⟨(hpost q hq).1, hfreeN q (hpost q hq).1⟩) hcontent hanc
    exact ⟨el, lineage_modifyAt_self N el _ anc _ hl⟩
  · unfold querySelectorAll
    apply free_settle env (tokenSelector p.id) post
      (fun q hq => free_of_content env doc hcontent q p (hpost q hq).1 hp)
    exact selectForest_modifyAt_unique _ _ (hfreeN p hp) el _ (hU rfl)

theorem include_exact (env : Env) (doc : List Node) (order : List Pipeline) (p : Pipeline)
    (tag : String) (attrs : Attrs) (kids : List Node) (text data : String)
    (hperm : order.Perm (pipelines env doc)) (hp : p ∈ pipelines env doc)
    (hel : nodeAt p.el doc = some (.element tag attrs kids))
    (hbody : env.outcome p.index = .body text)
    (htrans : env.runTransforms text (getAttribute attrs "data-oninclude") p.url = .ok data)
    (hlocate : querySelector (tokenSelector p.id) (scan env doc).1.document = some p.el)
    (hothers : ∀ q ∈ pipelines env doc, q ≠ p → (env.outcome q.index).thrown.isSome = true) :
    (completed env doc order).document =
      modifyAt (fun _ => includedNodes env.parseFragment tag attrs data) p.el
        (scan env doc).1.document := by
  obtain ⟨pre, post, rfl, hpre, hpost⟩ := split_order env doc order p hperm hp
  have hpre' := settle_of_failures env pre (fun q hq => hothers q (hpre q hq).1 (hpre q hq).2)
    ((scan env doc).1, true)
  have htag := (scanInv_scan env doc).tagged p hp
  rw [elementAt_of_nodeAt _ _ _ _ _ hel] at htag
  have htrans' : env.runTransforms text
      (getAttribute (setAttribute attrs "data-include-id" p.id) "data-oninclude") p.url =
      .ok data := by
    rw [getAttribute_setAttribute_ne _ _ _ _ (by decide)]
    exact htrans
  have hproc := processResponse_located env text p.id p.url
    (settle env pre ((scan env doc).1, true)).1 p.el tag _ data
    (by rw [hpre'.1]; exact hlocate) (by rw [hpre'.1]; exact htag) htrans'
  rw [includedNodes_setAttribute_id] at hproc
  have hres : (resume env p (settle env pre ((scan env doc).1, true)).1).1.document =
      modifyAt (fun _ => includedNodes env.parseFragment tag attrs data) p.el
        (scan env doc).1.document := by
    simp [resume, attempt, hbody, hproc, hpre'.1]
  unfold completed
  simp only [settle_append, settle]
  rw [(settle_of_failures env post (fun q hq => hothers q (hpost q hq).1 (hpost q hq).2) _).1]
  exact hres

theorem failing_keeps (env : Env) (doc : List Node) (l : List Pipeline) (p : Pipeline)
    (anc : List (String × Attrs)) (tag : String) (attrs : Attrs) (kids : List Node)
    (err : Thrown)
    (hnodup : l.Nodup) (hsub : ∀ q ∈ l, q ∈ pipelines env doc) (hp : p ∈ pipelines env doc)
    (hlin : lineage p.el doc = some (anc, .element tag attrs kids))
    (hanc : AncestorsInert env doc anc)
    (hunique : querySelectorAll (tokenSelector p.id) (scan env doc).1.document = [p.el])
    (hcontent : ContentCarriesNoToken env doc)
    (hfail : (env.outcome p.index).thrown = some err) :
    Holds (tokenSelector p.id)
      (fun n => ∃ k, n = .element tag (setAttribute attrs "data-include-id" p.id) k) anc true
      (settle env l ((scan env doc).1, true)).1.document := by
  have h0 := shell_after_scan env doc p hp anc tag attrs kids hlin hanc hunique
  by_cases hpl : p ∈ l
  · obtain ⟨pre, post, rfl⟩ := List.append_of_mem hpl
    have hpre : ∀ q ∈ pre, q ∈ pipelines env doc ∧ q ≠ p := by
      intro q hq
      refine ⟨hsub q (by simp [hq]), ?_⟩
      rintro rfl
      exact (List.nodup_append.1 hnodup).2.2 hq (by simp)
    have hpost : ∀ q ∈ post, q ∈ pipelines env doc ∧ q ≠ p := by
      intro q hq
      refine ⟨hsub q (by simp [hq]), ?_⟩
      rintro rfl
      exact (List.nodup_cons.1 (List.nodup_append.1 hnodup).2.1).1 hq
    have h1 := shell_before_turn env doc p hp anc tag attrs kids hlin hanc hunique hcontent pre
      hpre ((scan env doc).1, true) h0
    simp only [settle_append, settle]
    apply shell_before_turn env doc p hp anc tag attrs kids hlin hanc hunique hcontent post hpost
    show Holds _ _ anc true (resume env p (settle env pre ((scan env doc).1, true)).1).1.document
    rw [resume_of_thrown env p _ err hfail, handleFailure_document]
    exact h1
  · exact shell_before_turn env doc p hp anc tag attrs kids hlin hanc hunique hcontent l
      (fun q hq => ⟨hsub q hq, fun h => hpl (h ▸ hq)⟩) ((scan env doc).1, true) h0

/-! ### Fetches and messages of a run -/

theorem handleFailure_fetched (p : Pipeline) (err : Thrown) (st : State) :
    (handleFailure p err st).1.fetched = st.fetched := by
  unfold handleFailure
  cases err.messageText <;> rfl

theorem handleFailure_published (p : Pipeline) (err : Thrown) (st : State) :
    (handleFailure p err st).1.published =
      st.published ++ (err.messageText.map (errorMessage p.url)).toList := by
  unfold handleFailure
  cases err.messageText <;> simp [pub, consoleError]

theorem resume_fetched (env : Env) (p : Pipeline) (st : State) :
    (resume env p st).1.fetched = st.fetched := by
  have hf := attempt_frame env p st
  unfold resume
  cases ha : attempt env p st with
  | ok st1 =>
    rw [ha] at hf
    exact hf.1
  | error e =>
    obtain ⟨err, st1⟩ := e
    rw [ha] at hf
    simp only at hf
    rw [handleFailure_fetched, hf.1]

theorem settle_fetched (env : Env) (l : List Pipeline) :
    ∀ acc : State × Bool, (settle env l acc).1.fetched = acc.1.fetched := by
  induction l with
  | nil => intro acc; rfl
  | cons p l ih =>
    intro acc
    simp only [settle]
    rw [ih, resume_fetched]

theorem resume_published_origin (env : Env) (p : Pipeline) (st : State) :
    ∀ msg ∈ (resume env p st).1.published,
      msg ∈ st.published ∨ ∃ m, msg = errorMessage p.url m := by
  have hf := attempt_frame env p st
  unfold resume
  cases ha : attempt env p st with
  | ok st1 =>
    rw [ha] at hf
    intro msg hmsg
    left
    simpa [hf.2.2] using hmsg
  | error e =>
    obtain ⟨err, st1⟩ := e
    rw [ha] at hf
    simp only at hf
    intro msg hmsg
    rw [handleFailure_published, hf.2.2.1] at hmsg
    rcases List.mem_append.1 hmsg with h | h
    · exact Or.inl h
    · cases hm : err.messageText with
      | none => simp [hm] at h
      | some m =>
        simp only [hm, Option.map_some', Option.toList_some, List.mem_singleton] at h
        exact Or.inr ⟨m, h⟩

theorem settle_published_origin (env : Env) (l : List Pipeline) :
    ∀ acc : State × Bool, ∀ msg ∈ (settle env l acc).1.published,
      msg ∈ acc.1.published ∨ ∃ q ∈ l, ∃ m, msg = errorMessage q.url m := by
  induction l with
  | nil => intro acc msg h; exact Or.inl h
  | cons p l ih =>
    intro acc msg h
    simp only [settle] at h
    rcases ih _ msg h with h1 | ⟨q, hq, m, hm⟩
    · rcases resume_published_origin env p acc.1 msg h1 with h2 | ⟨m, hm⟩
      · exact Or.inl h2
      · exact Or.inr ⟨p, List.mem_cons_self _ _, m, hm⟩
    · exact Or.inr ⟨q, List.mem_cons_of_mem _ hq, m, hm⟩

theorem contentCarriesNoToken_demoParse (env : Env) (doc : List Node)
    (h : env.parseFragment = demoParse) : ContentCarriesNoToken env doc := by
  intro q _ r _ text fl data tag _ _
  rw [h]
  unfold demoParse
  split <;>
    simp [selectForest, selectNode, tokenSelector, attributeEqualsSelector, getAttribute]

theorem plain_kept (env : Env) (doc : List Node) (l : List Pipeline) (x : Path)
    (anc : List (String × Attrs)) (tag : String) (attrs : Attrs) (kids : List Node)
    (hsub : ∀ q ∈ l, q ∈ pipelines env doc)
    (hlin : lineage x doc = some (anc, .element tag attrs kids))
    (hsrc : getAttribute attrs "data-include" = none ∨ getAttribute attrs "data-include" = some "")
    (hanc : AncestorsInert env doc anc)
    (hinside : ∀ q ∈ pipelines env doc, x ∉ ancestorsOf q.el)
    (htok : ∀ q ∈ pipelines env doc,
      selectForest (tokenSelector q.id) [.element tag attrs kids] = [])
    (hcontent : ContentCarriesNoToken env doc) :
    ∃ el, lineage el (settle env l ((scan env doc).1, true)).1.document =
      some (anc, .element tag attrs kids) := by
  have hnode := nodeAt_of_lineage _ _ _ _ hlin
  have hel := elementAt_of_nodeAt _ _ _ _ _ hnode
  have hno := no_pipeline_at env doc x (tag, attrs) hel hsrc
  have hout := (scanInv_scan env doc).outside x (fun q hq => ⟨hno q hq, hinside q hq⟩)
  have h1 : lineage x (scan env doc).1.document = some (anc, .element tag attrs kids) :=
    (lineage_iff _ _ _ _).2
      ⟨by rw [hout]; exact hnode,
        ancestors_scan env doc x anc _ hlin (fun s hs => (hanc s hs).1)⟩
  exact node_holds_settle env doc anc _ l
    (fun q hq => ⟨hsub q hq, htok q (hsub q hq)⟩) hcontent hanc
    ((scan env doc).1, true) ⟨x, h1⟩

theorem perm_pair {α : Type} (l : List α) (a b : α) (h : l.Perm [a, b]) :
    l = [a, b] ∨ l = [b, a] := by
  have hlen := h.length_eq
  match l, hlen with
  | [x, y], _ =>
    have h1 := h.mem_iff (a := x)
    have h2 := h.mem_iff (a := y)
    have h3 := h.symm.mem_iff (a := a)
    have h4 := h.symm.mem_iff (a := b)
    simp only [List.mem_cons, List.mem_singleton, true_or, or_true, true_iff, List.mem_nil_iff,
      or_false] at h1 h2 h3 h4
    rcases h1 with rfl | rfl <;> rcases h2 with rfl | rfl
    · rcases h4 with h4 | h4 <;> simp [h4]
    · simp
    · simp
    · rcases h3 with h3 | h3 <;> simp [h3]

/-! ### Settlement of the aggregate promise -/

theorem settle_state_flag (env : Env) (l : List Pipeline) :
    ∀ (st : State) (b c : Bool), (settle env l (st, b)).1 = (settle env l (st, c)).1 := by
  induction l with
  | nil => intro st b c; rfl
  | cons p l ih =>
    intro st b c
    simp only [settle]
    exact ih _ _ _

theorem settle_flag_false (env : Env) (l : List Pipeline) :
    ∀ st : State, (settle env l (st, false)).2 = false := by
  induction l with
  | nil => intro st; rfl
  | cons p l ih =>
    intro st
    simp only [settle, Bool.false_and]
    exact ih _

theorem awaitAll_cons_fulfilled (env : Env) (p : Pipeline) (rest : List Pipeline) (st : State)
    (h : (resume env p st).2 = .fulfilled) :
    awaitAll env (p :: rest) st = awaitAll env rest (resume env p st).1 := by
  rw [awaitAll]
  cases hr : resume env p st with
  | mk st1 s =>
    rw [hr] at h
    simp only at h
    subst h
    rfl

theorem awaitAll_cons_rejected (env : Env) (p : Pipeline) (rest : List Pipeline) (st : State)
    (h : (resume env p st).2 = .rejected) :
    awaitAll env (p :: rest) st = ((resume env p st).1, RunResult.rejected) := by
  rw [awaitAll]
  cases hr : resume env p st with
  | mk st1 s =>
    rw [hr] at h
    simp only at h
    subst h
    rfl

theorem settlement_cases (s : Settlement) : s = .fulfilled ∨ s = .rejected := by
  cases s
  · exact Or.inl rfl
  · exact Or.inr rfl

/-- When the promise of `run()` settles, exactly the pipelines of some initial
segment of the order have been resumed. -/
theorem awaitAll_resumed (env : Env) (l : List Pipeline) :
    ∀ st : State, ∃ pre post, l = pre ++ post ∧
      (awaitAll env l st).1 = (settle env pre (st, true)).1 := by
  induction l with
  | nil => intro st; exact ⟨[], [], rfl, rfl⟩
  | cons p l ih =>
    intro st
    rcases settlement_cases (resume env p st).2 with h | h
    · obtain ⟨pre, post, hl, hst⟩ := ih (resume env p st).1
      refine ⟨p :: pre, post, by simp [hl], ?_⟩
      rw [awaitAll_cons_fulfilled env p l st h, hst]
      simp only [settle]
      exact settle_state_flag env pre _ _ _
    · refine ⟨[p], l, rfl, ?_⟩
      rw [awaitAll_cons_rejected env p l st h]
      rfl

/-- When the promise of `run()` resolves, every pipeline has been resumed. -/
theorem awaitAll_resolved (env : Env) (l : List Pipeline) :
    ∀ st : State, (awaitAll env l st).2 = .resolved →
      (awaitAll env l st).1 = (settle env l (st, true)).1 := by
  induction l with
  | nil => intro st _; rfl
  | cons p l ih =>
    intro st hres
    rcases settlement_cases (resume env p st).2 with h | h
    · rw [awaitAll_cons_fulfilled env p l st h] at hres ⊢
      rw [ih _ hres]
      simp only [settle]
      exact settle_state_flag env l _ _ _
    · rw [awaitAll_cons_rejected env p l st h] at hres
      simp at hres

theorem awaitAll_of_flag (env : Env) (l : List Pipeline) :
    ∀ st : State, (settle env l (st, true)).2 = true →
      (awaitAll env l st).2 = .resolved := by
  induction l with
  | nil => intro st _; rfl
  | cons p l ih =>
    intro st hflag
    rcases settlement_cases (resume env p st).2 with h | h
    · rw [awaitAll_cons_fulfilled env p l st h]
      apply ih
      simpa [settle, h] using hflag
    · simp only [settle, h, Bool.true_and] at hflag
      have : decide (Settlement.rejected = Settlement.fulfilled) = false := by decide
      rw [this, settle_flag_false] at hflag
      simp at hflag

theorem awaitAll_append_of_flag (env : Env) (l1 l2 : List Pipeline) :
    ∀ st : State, (settle env l1 (st, true)).2 = true →
      awaitAll env (l1 ++ l2) st = awaitAll env l2 (settle env l1 (st, true)).1 := by
  induction l1 with
  | nil => intro st _; rfl
  | cons p l1 ih =>
    intro st hflag
    rcases settlement_cases (resume env p st).2 with h | h
    · have hflag' : (settle env l1 ((resume env p st).1, true)).2 = true := by
        simpa [settle, h] using hflag
      rw [List.cons_append, awaitAll_cons_fulfilled env p _ st h, ih _ hflag']
      simp only [settle]
      congr 1
      exact settle_state_flag env l1 _ _ _
    · simp only [settle, h, Bool.true_and] at hflag
      have : decide (Settlement.rejected = Settlement.fulfilled) = false := by decide
      rw [this, settle_flag_false] at hflag
      simp at hflag

theorem awaitAll_published_extends (env : Env) (l : List Pipeline) :
    ∀ st : State, ∃ extra, (awaitAll env l st).1.published = st.published ++ extra := by
  intro st
  obtain ⟨pre, post, _, hst⟩ := awaitAll_resumed env l st
  rw [hst]
  exact settle_published_extends env pre (st, true)

theorem awaitAll_resolved_of_readable (env : Env) (l : List Pipeline)
    (hfetch : ∀ n err, (env.outcome n).thrown = some err → err.messageText ≠ none)
    (htrans : ∀ raw fl url err, env.runTransforms raw fl url = .error err →
      err.messageText ≠ none) :
    ∀ st : State, (awaitAll env l st).2 = .resolved := by
  intro st
  apply awaitAll_of_flag
  rw [settle_flag_of_readable env l hfetch htrans]

/-- The state at the settlement of `run()` is the state after the pipelines of an
initial segment of the order. -/
theorem run_resumed (env : Env) (doc : List Node) (order : List Pipeline) :
    ∃ pre post, order = pre ++ post ∧
      (run env doc order).1 = (settle env pre ((scan env doc).1, true)).1 :=
  awaitAll_resumed env order (scan env doc).1

theorem run_resolved (env : Env) (doc : List Node) (order : List Pipeline)
    (h : (run env doc order).2 = .resolved) :
    (run env doc order).1 = completed env doc order :=
  awaitAll_resolved env order (scan env doc).1 h

/-! # Properties of the specification -/

/-! ## Settlement of `run()` -/

/-- C1 (as amended): for every document and every order of settlement, if the
template literal of the `catch` block can render the `message` of every value
with which a fetch, a body read or the transform pipeline fails (the value is
not `null` or `undefined`, reading its `message` does not throw, and the
message converts to a string), the promise returned by `run()` resolves, and
every pipeline has finished by then; in particular it resolves when every
fetch fails with an `Error`. -/
theorem run_resolves_when_errors_readable (env : Env) (doc : List Node) (order : List Pipeline)
    (hfetch : ∀ n err, (env.outcome n).thrown = some err → err.messageText ≠ none)
    (htrans : ∀ raw fl url err, env.runTransforms raw fl url = .error err →
      err.messageText ≠ none) :
    (run env doc order).2 = RunResult.resolved ∧
    (run env doc order).1 = completed env doc order := by
  have h : (run env doc order).2 = RunResult.resolved :=
    awaitAll_resolved_of_readable env order hfetch htrans _
  exact ⟨h, run_resolved env doc order h⟩

/-- Witness for C1 (as amended): two elements whose fetches both reject with the
error "404". -/
theorem run_resolves_when_errors_readable_witness :
    (run (rejectingEnv (.error "404")) twoIncludes
      (pipelines (rejectingEnv (.error "404")) twoIncludes)).2 = RunResult.resolved :=
  (run_resolves_when_errors_readable (rejectingEnv (.error "404")) twoIncludes _
    (by
      intro n err h
      simp only [rejectingEnv, FetchOutcome.thrown, Option.some.injEq] at h
      subst h
      simp [Thrown.messageText])
    (by
      intro raw fl url err h
      simp [rejectingEnv] at h)).1

/-- C1 (counterexample): when the fetch of the only directive element rejects
with `undefined`, evaluating `err.message` in the `catch` block throws, nothing
is published, and the promise returned by `run()` rejects.  The same happens
when the fetch rejects with a non-nullish value whose `message` is a `Symbol`.
With two elements, the first one to settle rejecting with `undefined`, the
promise rejects while the second element is still waiting: at that moment its
pipeline has changed nothing, and it is filled afterwards. -/
theorem run_rejects_on_nullish_rejection :
    (run (rejectingEnv .nullish) (singleInclude "a.html")
      (pipelines (rejectingEnv .nullish) (singleInclude "a.html"))).2 = RunResult.rejected ∧
    (run (rejectingEnv .nullish) (singleInclude "a.html")
      (pipelines (rejectingEnv .nullish) (singleInclude "a.html"))).1.published = [] ∧
    (run (rejectingEnv .unreadable) (singleInclude "a.html")
      (pipelines (rejectingEnv .unreadable) (singleInclude "a.html"))).2 = RunResult.rejected ∧
    (run (mixedEnv .nullish "B") twoIncludes
      (pipelines (mixedEnv .nullish "B") twoIncludes)).2 = RunResult.rejected ∧
    (run (mixedEnv .nullish "B") twoIncludes
      (pipelines (mixedEnv .nullish "B") twoIncludes)).1.document =
      (scan (mixedEnv .nullish "B") twoIncludes).1.document ∧
    (completed (mixedEnv .nullish "B") twoIncludes
      (pipelines (mixedEnv .nullish "B") twoIncludes)).document =
      [.element "div" [("data-include", "a.html"), ("data-include-id", "include-111")] [],
       .element "p" [] [.text "B"]] :=
  ⟨rfl, rfl, rfl, rfl, rfl, rfl⟩

/-! ## Error reporting -/

/-- C2: when the `try` block of the pipeline of an element with source URL `u`
fails (at the fetch, the body read, the transform or the render) with an error
whose message is `m`, that pipeline publishes exactly one payload, the string
made of `u` and `m` by the template.  The payload is among those published once
every pipeline has finished, and among those published when the promise of
`run()` settles if no callback resumed before this one has rejected. -/
theorem failure_publishes_message (env : Env) (doc : List Node) (pre post : List Pipeline)
    (p : Pipeline) (m : String) (st1 : State)
    (hperm : (pre ++ p :: post).Perm (pipelines env doc))
    (hfail : attempt env p (settle env pre ((scan env doc).1, true)).1 =
      .error (.error m, st1)) :
    dataset doc p.el "data-include" = some p.url ∧ p.url ≠ "" ∧
    (resume env p (settle env pre ((scan env doc).1, true)).1).1.published =
      (settle env pre ((scan env doc).1, true)).1.published ++ [errorMessage p.url m] ∧
    errorMessage p.url m ∈ (completed env doc (pre ++ p :: post)).published ∧
    ((settle env pre ((scan env doc).1, true)).2 = true →
      errorMessage p.url m ∈ (run env doc (pre ++ p :: post)).1.published) := by
  have hp : p ∈ pipelines env doc := hperm.subset (by simp)
  have hurl := (scanInv_scan env doc).urls p hp
  have hframe := attempt_frame env p (settle env pre ((scan env doc).1, true)).1
  rw [hfail] at hframe
  simp only at hframe
  have hres : (resume env p (settle env pre ((scan env doc).1, true)).1).1.published =
      (settle env pre ((scan env doc).1, true)).1.published ++ [errorMessage p.url m] := by
    simp [resume, hfail, handleFailure, Thrown.messageText, hframe.2.2.1, pub, consoleError]
  have hful : (resume env p (settle env pre ((scan env doc).1, true)).1).2 = .fulfilled := by
    simp [resume, hfail, handleFailure, Thrown.messageText]
  refine ⟨hurl.1, hurl.2, hres, ?_, ?_⟩
  · unfold completed
    simp only [settle_append, settle]
    obtain ⟨extra, hextra⟩ := settle_published_extends env post
      ((resume env p (settle env pre ((scan env doc).1, true)).1).1,
        (settle env pre ((scan env doc).1, true)).2 &&
          decide ((resume env p (settle env pre ((scan env doc).1, true)).1).2 = .fulfilled))
    rw [hextra]
    simp [hres]
  · intro hflag
    unfold run
    rw [awaitAll_append_of_flag env pre (p :: post) _ hflag,
      awaitAll_cons_fulfilled env p post _ hful]
    obtain ⟨extra, hextra⟩ := awaitAll_published_extends env post
      (resume env p (settle env pre ((scan env doc).1, true)).1).1
    rw [hextra]
    simp [hres]

/-- Witness for C2: the element with `data-include="bad.html"` whose fetch rejects
with message "404". -/
theorem failure_publishes_message_witness :
    errorMessage "bad.html" "404" =
      "`data-include` failed: `bad.html` (404). See console for details." ∧
    errorMessage "bad.html" "404" ∈
      (run (rejectingEnv (.error "404")) (singleInclude "bad.html")
        ([] ++ { el := .here, url := "bad.html", id := "include-111", index := 0 } :: [])
        ).1.published :=
  ⟨by decide,
   (failure_publishes_message (rejectingEnv (.error "404")) (singleInclude "bad.html") [] []
    { el := .here, url := "bad.html", id := "include-111", index := 0 } "404"
    (scan (rejectingEnv (.error "404")) (singleInclude "bad.html")).1
    (by decide) (by rfl)).2.2.2.2 rfl⟩

/-- C10 (as amended): when the body of a pipeline arrives and no element of the
document carries the pipeline's token, `processResponse` throws before calling
`runTransforms` and before touching the tree; the handler logs the error and
publishes exactly one message, for the URL of the element, and the callback's
promise fulfils.  If moreover the template literal can render the message of
every value with which a fetch, a body read or the transform pipeline of the
run fails, `run()` resolves, with that message among the published ones. -/
theorem vanished_element_is_reported (env : Env) (doc : List Node) (pre post : List Pipeline)
    (p : Pipeline) (text : String)
    (hperm : (pre ++ p :: post).Perm (pipelines env doc))
    (hbody : env.outcome p.index = .body text)
    (hgone : querySelector (tokenSelector p.id)
      (settle env pre ((scan env doc).1, true)).1.document = none) :
    dataset doc p.el "data-include" = some p.url ∧ p.url ≠ "" ∧
    processResponse env text p.id p.url (settle env pre ((scan env doc).1, true)).1 =
      .error (.error env.nullMessage, (settle env pre ((scan env doc).1, true)).1) ∧
    resume env p (settle env pre ((scan env doc).1, true)).1 =
      ({ (settle env pre ((scan env doc).1, true)).1 with
          logged := (settle env pre ((scan env doc).1, true)).1.logged ++
            [(p.el, .error env.nullMessage)]
          published := (settle env pre ((scan env doc).1, true)).1.published ++
            [errorMessage p.url env.nullMessage] },
        Settlement.fulfilled) ∧
    ((∀ n err, (env.outcome n).thrown = some err → err.messageText ≠ none) →
      (∀ raw fl url err, env.runTransforms raw fl url = .error err → err.messageText ≠ none) →
      (run env doc (pre ++ p :: post)).2 = RunResult.resolved ∧
      errorMessage p.url env.nullMessage ∈ (run env doc (pre ++ p :: post)).1.published) := by
  have hp : p ∈ pipelines env doc := hperm.subset (by simp)
  have hurl := (scanInv_scan env doc).urls p hp
  have h1 : processResponse env text p.id p.url (settle env pre ((scan env doc).1, true)).1 =
      .error (.error env.nullMessage, (settle env pre ((scan env doc).1, true)).1) := by
    simp [processResponse, hgone]
  have h2 : resume env p (settle env pre ((scan env doc).1, true)).1 =
      ({ (settle env pre ((scan env doc).1, true)).1 with
          logged := (settle env pre ((scan env doc).1, true)).1.logged ++
            [(p.el, .error env.nullMessage)]
          published := (settle env pre ((scan env doc).1, true)).1.published ++
            [errorMessage p.url env.nullMessage] },
        Settlement.fulfilled) := by
    simp [resume, attempt, hbody, h1, handleFailure, Thrown.messageText, pub, consoleError]
  refine ⟨hurl.1, hurl.2, h1, h2, ?_⟩
  intro hfetch htrans
  have hres : (run env doc (pre ++ p :: post)).2 = RunResult.resolved :=
    awaitAll_resolved_of_readable env _ hfetch htrans _
  refine ⟨hres, ?_⟩
  rw [run_resolved env doc _ hres]
  unfold completed
  simp only [settle_append, settle]
  obtain ⟨extra, hextra⟩ := settle_published_extends env post
    ((resume env p (settle env pre ((scan env doc).1, true)).1).1,
      (settle env pre ((scan env doc).1, true)).2 &&
        decide ((resume env p (settle env pre ((scan env doc).1, true)).1).2 = .fulfilled))
  rw [hextra, h2]
  simp

/-- Witness for C10 (as amended): a directive element nested in another one; the
outer pipeline settles first and replaces the children of the outer element, so
the inner element is gone when its own body arrives.  The run resolves and the
message for `inner.html` is published. -/
theorem vanished_element_is_reported_witness :
    (run (deliveringEnv "OUTER" "INNER") nestedIncludes
      ([{ el := .here, url := "outer.html", id := "include-111", index := 0 }] ++
        { el := .down .here, url := "inner.html", id := "include-222", index := 1 } :: [])).2 =
      RunResult.resolved ∧
    errorMessage "inner.html" "el is null" ∈
      (run (deliveringEnv "OUTER" "INNER") nestedIncludes
        ([{ el := .here, url := "outer.html", id := "include-111", index := 0 }] ++
          { el := .down .here, url := "inner.html", id := "include-222", index := 1 } :: [])
        ).1.published :=
  (vanished_element_is_reported (deliveringEnv "OUTER" "INNER") nestedIncludes
    [{ el := .here, url := "outer.html", id := "include-111", index := 0 }] []
    { el := .down .here, url := "inner.html", id := "include-222", index := 1 }
    "INNER" (by decide) rfl rfl).2.2.2.2
    (by
      intro n err h
      simp only [deliveringEnv] at h
      split at h <;> simp [FetchOutcome.thrown] at h)
    (by
      intro raw fl url err h
      simp [deliveringEnv] at h)

/-- C10 (counterexample): a directive element nested in another one, followed by
a third directive element whose fetch rejects with `undefined`.  The outer
pipeline settles first, so no element carries the token of the inner pipeline
when its body arrives; its failure is caught and its one message is published;
then the third fetch rejects, the `catch` block throws, and the promise
returned by `run()` rejects. -/
theorem vanished_element_in_rejecting_run :
    (pipelines lastRejectsEnv nestedThenSibling).map Pipeline.id =
      ["include-111", "include-222", "include-333"] ∧
    lastRejectsEnv.outcome 1 = .body "INNER" ∧
    querySelector (tokenSelector "include-222")
      (settle lastRejectsEnv
        [{ el := .here, url := "outer.html", id := "include-111", index := 0 }]
        ((scan lastRejectsEnv nestedThenSibling).1, true)).1.document = none ∧
    (run lastRejectsEnv nestedThenSibling
      (pipelines lastRejectsEnv nestedThenSibling)).1.published =
      [errorMessage "inner.html" "el is null"] ∧
    (run lastRejectsEnv nestedThenSibling
      (pipelines lastRejectsEnv nestedThenSibling)).2 = RunResult.rejected :=
  ⟨rfl, rfl, rfl, rfl, rfl⟩

/-! ## Injection -/

/-- C5 (as amended): let an element have a non-empty source URL, format absent or
"html", and no replace attribute; let its fetch and body read succeed and the
transform pipeline return `data`.  If the element is the only one that carries
its correlation token after the scan, none of its ancestors is a directive
element with a URL or carries a token of the run, no included content carries a
token of the run, and the promise returned by `run()` resolves, then, for every
order of settlement, at that moment the document holds, below the same
ancestors, the element with the parsed `data` as its children and with the
directive attributes removed; and when no other fetch of the run succeeds, the
document is the scanned document with exactly this element in the place of the
former one. -/
theorem html_include_fills_element (env : Env) (doc : List Node) (order : List Pipeline)
    (p : Pipeline) (anc : List (String × Attrs)) (tag : String) (attrs : Attrs)
    (kids : List Node) (text data : String)
    (hperm : order.Perm (pipelines env doc)) (hp : p ∈ pipelines env doc)
    (hlin : lineage p.el doc = some (anc, .element tag attrs kids))
    (hformat : getAttribute attrs "data-include-format" = none ∨
      getAttribute attrs "data-include-format" = some "html")
    (hreplace : getAttribute attrs "data-include-replace" = none)
    (hbody : env.outcome p.index = .body text)
    (htrans : env.runTransforms text (getAttribute attrs "data-oninclude") p.url = .ok data)
    (hunique : querySelectorAll (tokenSelector p.id) (scan env doc).1.document = [p.el])
    (hanc : AncestorsInert env doc anc)
    (hcontent : ContentCarriesNoToken env doc)
    (hres : (run env doc order).2 = RunResult.resolved) :
    getAttribute attrs "data-include" = some p.url ∧ p.url ≠ "" ∧
    (∃ el, lineage el (run env doc order).1.document =
      some (anc, .element tag (stripIncludeAttributes attrs) (env.parseFragment tag data))) ∧
    ((∀ q ∈ pipelines env doc, q ≠ p → (env.outcome q.index).thrown.isSome = true) →
      (run env doc order).1.document =
        modifyAt
          (fun _ => [.element tag (stripIncludeAttributes attrs) (env.parseFragment tag data)])
          p.el (scan env doc).1.document) := by
  have hurl := (scanInv_scan env doc).urls p hp
  have hnode := nodeAt_of_lineage _ _ _ _ hlin
  have hds : dataset doc p.el "data-include" = getAttribute attrs "data-include" := by
    simp [dataset, hnode]
  rw [hds] at hurl
  refine ⟨hurl.1, hurl.2, ?_⟩
  have hN : includedNodes env.parseFragment tag attrs data =
      [.element tag (stripIncludeAttributes attrs) (env.parseFragment tag data)] := by
    unfold includedNodes
    rcases hformat with hf | hf <;> simp [hf, hreplace]
  rw [run_resolved env doc order hres]
  refine ⟨(include_single env doc order p anc tag attrs kids text data _ hperm hp hlin hanc
    hunique hcontent hbody htrans hN).1, ?_⟩
  intro hothers
  rw [← hN]
  exact include_exact env doc order p tag attrs kids text data hperm hp hnode hbody htrans
    (by unfold querySelectorAll at hunique; unfold querySelector; rw [hunique]; rfl) hothers

/-- Witness for C5 (as amended): `div` with `data-include="a.html"` whose body is
the markup of a bold "hi", beside a second directive element whose fetch
settles first. -/
theorem html_include_fills_element_witness :
    ∃ el, lineage el
        (run (deliveringEnv "<b>hi</b>" "other") twoIncludes
          (pipelines (deliveringEnv "<b>hi</b>" "other") twoIncludes).reverse).1.document =
      some ([], .element "div" [] [.element "b" [] [.text "hi"]]) :=
  (html_include_fills_element (deliveringEnv "<b>hi</b>" "other") twoIncludes
    (pipelines (deliveringEnv "<b>hi</b>" "other") twoIncludes).reverse
    { el := .here, url := "a.html", id := "include-111", index := 0 }
    [] "div" [("data-include", "a.html")] [] "<b>hi</b>" "<b>hi</b>"
    (List.reverse_perm _) (by decide) rfl (Or.inl rfl) rfl rfl rfl (by decide)
    (fun s hs => absurd hs (List.not_mem_nil s))
    (contentCarriesNoToken_demoParse _ _ rfl) rfl).2.2.1

/-- C5 (counterexample): a directive element nested in another one.  The inner
`span` has a source URL, no format and no replace attribute, and its fetch
succeeds; whichever pipeline settles first, `run()` resolves with the document
made of the outer `div` with the outer content, and the `span` is not in it. -/
theorem nested_html_include_is_lost :
    nodeAt (.down .here) nestedIncludes =
      some (.element "span" [("data-include", "inner.html")] []) ∧
    (deliveringEnv "OUTER" "INNER").outcome 1 = .body "INNER" ∧
    run (deliveringEnv "OUTER" "INNER") nestedIncludes
      (pipelines (deliveringEnv "OUTER" "INNER") nestedIncludes) =
      ({ document := [.element "div" [] [.text "OUTER"]]
         fetched := ["outer.html", "inner.html"]
         transformCalls := [("OUTER", none, "outer.html")]
         logged := [(.down .here, .error "el is null")]
         published := [errorMessage "inner.html" "el is null"] }, RunResult.resolved) ∧
    (run (deliveringEnv "OUTER" "INNER") nestedIncludes
      (pipelines (deliveringEnv "OUTER" "INNER") nestedIncludes).reverse).1.document =
      [.element "div" [] [.text "OUTER"]] ∧
    (run (deliveringEnv "OUTER" "INNER") nestedIncludes
      (pipelines (deliveringEnv "OUTER" "INNER") nestedIncludes).reverse).2 =
      RunResult.resolved :=
  ⟨rfl, rfl, rfl, rfl, rfl⟩

/-- C6 (as amended): let an element have a non-empty source URL, format "text"
and the replace attribute; let its fetch and body read succeed and the transform
pipeline return `data`.  If the element is the only one that carries its
correlation token after the scan, none of its ancestors is a directive element
with a URL or carries a token of the run, no included content carries a token
of the run, and the promise returned by `run()` resolves, then, for every order
of settlement, at that moment the document holds, below the same ancestors, the
text node `data`, and no element of the document carries the element's token:
the element is gone; and when no other fetch of the run succeeds, the document
is the scanned document with exactly this text node in the place of the
element, every other node being as the scan left it. -/
theorem text_replace_leaves_text_node (env : Env) (doc : List Node) (order : List Pipeline)
    (p : Pipeline) (anc : List (String × Attrs)) (tag : String) (attrs : Attrs)
    (kids : List Node) (text data : String)
    (hperm : order.Perm (pipelines env doc)) (hp : p ∈ pipelines env doc)
    (hlin : lineage p.el doc = some (anc, .element tag attrs kids))
    (hformat : getAttribute attrs "data-include-format" = some "text")
    (hreplace : (getAttribute attrs "data-include-replace").isSome = true)
    (hbody : env.outcome p.index = .body text)
    (htrans : env.runTransforms text (getAttribute attrs "data-oninclude") p.url = .ok data)
    (hunique : querySelectorAll (tokenSelector p.id) (scan env doc).1.document = [p.el])
    (hanc : AncestorsInert env doc anc)
    (hcontent : ContentCarriesNoToken env doc)
    (hres : (run env doc order).2 = RunResult.resolved) :
    (∃ el, lineage el (run env doc order).1.document = some (anc, .text data)) ∧
    querySelectorAll (tokenSelector p.id) (run env doc order).1.document = [] ∧
    ((∀ q ∈ pipelines env doc, q ≠ p → (env.outcome q.index).thrown.isSome = true) →
      (run env doc order).1.document =
        modifyAt (fun _ => [.text data]) p.el (scan env doc).1.document) := by
  have hN : includedNodes env.parseFragment tag attrs data = [.text data] := by
    unfold includedNodes
    simp [hformat, hreplace]
  have h := include_single env doc order p anc tag attrs kids text data _ hperm hp hlin hanc
    hunique hcontent hbody htrans hN
  rw [run_resolved env doc order hres]
  refine ⟨h.1, h.2, ?_⟩
  intro hothers
  rw [← hN]
  exact include_exact env doc order p tag attrs kids text data hperm hp
    (nodeAt_of_lineage _ _ _ _ hlin) hbody htrans
    (by unfold querySelectorAll at hunique; unfold querySelector; rw [hunique]; rfl) hothers

/-- Witness for C6 (as amended): `span` with `data-include="x.txt"`, format "text"
and the replace attribute, whose body is "plain", between a text node and a
directive element whose fetch fails with the error "404", followed by another
text node.  The failing pipeline settles first.  The text node "plain" stands
where the `span` was, and its siblings are as the scan left them. -/
theorem text_replace_leaves_text_node_witness :
    (run (deliveredThenRejectedEnv "plain" (.error "404")) textReplaceAmongSiblings
      (pipelines (deliveredThenRejectedEnv "plain" (.error "404"))
        textReplaceAmongSiblings).reverse).1.document =
      [.text "before", .text "plain",
       .element "p" [("data-include", "bad.html"), ("data-include-id", "include-222")] [],
       .text "after"] :=
  Eq.trans
    ((text_replace_leaves_text_node (deliveredThenRejectedEnv "plain" (.error "404"))
      textReplaceAmongSiblings
      (pipelines (deliveredThenRejectedEnv "plain" (.error "404"))
        textReplaceAmongSiblings).reverse
      { el := .next .here, url := "x.txt", id := "include-111", index := 0 }
      [] "span"
      [("data-include", "x.txt"), ("data-include-format", "text"), ("data-include-replace", "")]
      [] "plain" "plain"
      (List.reverse_perm _) (by decide) rfl rfl rfl rfl rfl (by decide)
      (fun s hs => absurd hs (List.not_mem_nil s))
      (contentCarriesNoToken_demoParse _ _ rfl) rfl).2.2 (by decide))
    rfl

/-- C6 (counterexample): a text-replace directive element nested in an html
directive element.  The inner `span` has a source URL, format "text" and the
replace attribute, and its fetch delivers "plain"; whichever pipeline settles
first, `run()` resolves with the document made of the outer `div` with the
outer content, and no text node "plain" has taken the place of the `span`. -/
theorem nested_text_replace_is_lost :
    nodeAt (.down .here) nestedTextReplace =
      some (.element "span"
        [("data-include", "x.txt"), ("data-include-format", "text"),
          ("data-include-replace", "")] []) ∧
    (deliveringEnv "OUTER" "plain").outcome 1 = .body "plain" ∧
    (run (deliveringEnv "OUTER" "plain") nestedTextReplace
      (pipelines (deliveringEnv "OUTER" "plain") nestedTextReplace)).1.document =
      [.element "div" [] [.text "OUTER"]] ∧
    (run (deliveringEnv "OUTER" "plain") nestedTextReplace
      (pipelines (deliveringEnv "OUTER" "plain") nestedTextReplace)).2 = RunResult.resolved ∧
    (run (deliveringEnv "OUTER" "plain") nestedTextReplace
      (pipelines (deliveringEnv "OUTER" "plain") nestedTextReplace).reverse).1.document =
      [.element "div" [] [.text "OUTER"]] ∧
    (run (deliveringEnv "OUTER" "plain") nestedTextReplace
      (pipelines (deliveringEnv "OUTER" "plain") nestedTextReplace).reverse).2 =
      RunResult.resolved :=
  ⟨rfl, rfl, rfl, rfl, rfl, rfl⟩

/-! ## Frame properties -/

/-- C8 (as amended): let the fetch or the body read of an element with a non-empty
source URL fail.  The scan has set `data-include-id` on the element to its
token and left its tag and every other attribute alone, and the failing
pipeline does not touch the document.  If the element is the only one that
carries its correlation token after the scan, none of its ancestors is a
directive element with a URL or carries a token of the run, and no included
content carries a token of the run, then for every order of settlement, both
when the promise of `run()` settles and once every pipeline has finished, the
document holds the element below the same ancestors with that attribute list:
the one it had before the run with the token added (or overwritten); no
attribute is removed and every other attribute has its former value. -/
theorem failed_include_keeps_attributes (env : Env) (doc : List Node) (order : List Pipeline)
    (p : Pipeline) (anc : List (String × Attrs)) (tag : String) (attrs : Attrs)
    (kids : List Node) (err : Thrown)
    (hperm : order.Perm (pipelines env doc)) (hp : p ∈ pipelines env doc)
    (hlin : lineage p.el doc = some (anc, .element tag attrs kids))
    (hfail : (env.outcome p.index).thrown = some err) :
    elementAt (scan env doc).1.document p.el =
      some (tag, setAttribute attrs "data-include-id" p.id) ∧
    (∀ st : State, (resume env p st).1.document = st.document) ∧
    getAttribute (setAttribute attrs "data-include-id" p.id) "data-include-id" = some p.id ∧
    (∀ name, name ≠ "data-include-id" →
      getAttribute (setAttribute attrs "data-include-id" p.id) name = getAttribute attrs name) ∧
    (querySelectorAll (tokenSelector p.id) (scan env doc).1.document = [p.el] →
      AncestorsInert env doc anc → ContentCarriesNoToken env doc →
      ∀ S : State, S = (run env doc order).1 ∨ S = completed env doc order →
      ∃ el kids1,
        lineage el S.document =
          some (anc, .element tag (setAttribute attrs "data-include-id" p.id) kids1) ∧
        querySelectorAll (tokenSelector p.id) S.document = [el]) := by
  have htag := (scanInv_scan env doc).tagged p hp
  rw [elementAt_of_nodeAt _ _ _ _ _ (nodeAt_of_lineage _ _ _ _ hlin)] at htag
  refine ⟨htag, ?_, getAttribute_setAttribute_self _ _ _,
    fun name hne => getAttribute_setAttribute_ne _ _ _ _ hne, ?_⟩
  · intro st
    rw [resume_of_thrown env p st err hfail, handleFailure_document]
  · intro hunique hanc hcontent S hS
    have hnd : order.Nodup := hperm.nodup_iff.2 (pipelines_nodup env doc)
    have key : ∀ l : List Pipeline, l.Nodup → (∀ q ∈ l, q ∈ pipelines env doc) →
        ∃ el kids1,
          lineage el (settle env l ((scan env doc).1, true)).1.document =
            some (anc, .element tag (setAttribute attrs "data-include-id" p.id) kids1) ∧
          querySelectorAll (tokenSelector p.id)
            (settle env l ((scan env doc).1, true)).1.document = [el] := by
      intro l hl hsub
      obtain ⟨el, n, h1, ⟨k, rfl⟩, h3⟩ := failing_keeps env doc l p anc tag attrs kids err
        hl hsub hp hlin hanc hunique hcontent hfail
      exact ⟨el, k, h1, h3 rfl⟩
    rcases hS with rfl | rfl
    · obtain ⟨pre, post, hsplit, hst⟩ := run_resumed env doc order
      rw [hst]
      subst hsplit
      exact key pre (List.nodup_append.1 hnd).1
        (fun q hq => hperm.subset (List.mem_append_left _ hq))
    · exact key order hnd (fun q hq => hperm.subset hq)

/-- Witness for C8 (as amended): the element with `data-include="bad.html"` whose
fetch rejects with message "404" keeps `data-include` and has gained the token. -/
theorem failed_include_keeps_attributes_witness :
    ∃ el kids1,
      lineage el
        (run (rejectingEnv (.error "404")) (singleInclude "bad.html")
          (pipelines (rejectingEnv (.error "404")) (singleInclude "bad.html"))).1.document =
        some ([], .element "div"
          (setAttribute [("data-include", "bad.html")] "data-include-id" "include-111") kids1) ∧
      querySelectorAll (tokenSelector "include-111")
        (run (rejectingEnv (.error "404")) (singleInclude "bad.html")
          (pipelines (rejectingEnv (.error "404")) (singleInclude "bad.html"))).1.document =
        [el] :=
  (failed_include_keeps_attributes (rejectingEnv (.error "404")) (singleInclude "bad.html")
    (pipelines (rejectingEnv (.error "404")) (singleInclude "bad.html"))
    { el := .here, url := "bad.html", id := "include-111", index := 0 }
    [] "div" [("data-include", "bad.html")] [] (.error "404")
    (List.Perm.refl _) (by decide) rfl rfl).2.2.2.2 (by decide)
    (fun s hs => absurd hs (List.not_mem_nil s))
    (contentCarriesNoToken_demoParse _ _ rfl) _ (Or.inl rfl)

/-- C8 (counterexample): the element with `data-include="bad.html"` whose fetch
rejects with message "404".  After the run its attribute list is not the one it
had before: the correlation token written by the scan is still there. -/
theorem failed_include_gains_token :
    nodeAt .here (singleInclude "bad.html") =
      some (.element "div" [("data-include", "bad.html")] []) ∧
    nodeAt .here
      (run (rejectingEnv (.error "404")) (singleInclude "bad.html")
        (pipelines (rejectingEnv (.error "404")) (singleInclude "bad.html"))).1.document =
      some (.element "div"
        [("data-include", "bad.html"), ("data-include-id", "include-111")] []) ∧
    (run (rejectingEnv (.error "404")) (singleInclude "bad.html")
      (pipelines (rejectingEnv (.error "404")) (singleInclude "bad.html"))).2 =
      RunResult.resolved ∧
    [("data-include", "bad.html"), ("data-include-id", "include-111")] ≠
      ([("data-include", "bad.html")] : Attrs) :=
  ⟨rfl, rfl, rfl, by decide⟩

/-- C7 (as amended): an element whose `data-include` is absent or empty gets no
pipeline, and the scan writes no token and no other attribute on it.  Both when
the promise of `run()` settles and once every pipeline has finished, no fetch
has been issued for it (the fetches are those of the pipelines) and no message
has been published for it (every message is built from the URL of a pipeline).
If moreover no directive element with a URL lies inside it, neither it, its
descendants nor its ancestors carry a token of the run, no ancestor is a
directive element with a URL, and no included content carries a token of the
run, then for every order of settlement the document holds, in both states, the
element below the same ancestors with the same tag, attributes and content. -/
theorem element_without_source_is_left_alone (env : Env) (doc : List Node)
    (order : List Pipeline) (x : Path) (anc : List (String × Attrs)) (tag : String)
    (attrs : Attrs) (kids : List Node)
    (hperm : order.Perm (pipelines env doc))
    (hlin : lineage x doc = some (anc, .element tag attrs kids))
    (hsrc : getAttribute attrs "data-include" = none ∨
      getAttribute attrs "data-include" = some "") :
    (∀ q ∈ pipelines env doc, q.el ≠ x) ∧
    elementAt (scan env doc).1.document x = some (tag, attrs) ∧
    (∀ S : State, S = (run env doc order).1 ∨ S = completed env doc order →
      S.fetched = (pipelines env doc).map Pipeline.url ∧
      (∀ msg ∈ S.published, ∃ q ∈ pipelines env doc, ∃ m, msg = errorMessage q.url m) ∧
      ((∀ q ∈ pipelines env doc, x ∉ ancestorsOf q.el) →
        (∀ q ∈ pipelines env doc,
          selectForest (tokenSelector q.id) [.element tag attrs kids] = []) →
        AncestorsInert env doc anc → ContentCarriesNoToken env doc →
        ∃ el, lineage el S.document = some (anc, .element tag attrs kids))) := by
  have hnode := nodeAt_of_lineage _ _ _ _ hlin
  have hel := elementAt_of_nodeAt _ _ _ _ _ hnode
  have hno := no_pipeline_at env doc x (tag, attrs) hel hsrc
  have key : ∀ l : List Pipeline, (∀ q ∈ l, q ∈ pipelines env doc) →
      (settle env l ((scan env doc).1, true)).1.fetched = (pipelines env doc).map Pipeline.url ∧
      (∀ msg ∈ (settle env l ((scan env doc).1, true)).1.published,
        ∃ q ∈ pipelines env doc, ∃ m, msg = errorMessage q.url m) ∧
      ((∀ q ∈ pipelines env doc, x ∉ ancestorsOf q.el) →
        (∀ q ∈ pipelines env doc,
          selectForest (tokenSelector q.id) [.element tag attrs kids] = []) →
        AncestorsInert env doc anc → ContentCarriesNoToken env doc →
        ∃ el, lineage el (settle env l ((scan env doc).1, true)).1.document =
          some (anc, .element tag attrs kids)) := by
    intro l hsub
    refine ⟨?_, ?_, ?_⟩
    · rw [settle_fetched]
      exact (scanInv_scan env doc).fetched
    · intro msg hmsg
      rcases settle_published_origin env l _ msg hmsg with h | ⟨q, hq, m, hm⟩
      · rw [(scanInv_scan env doc).quiet.2.2] at h
        simp at h
      · exact ⟨q, hsub q hq, m, hm⟩
    · intro hinside htok hanc hcontent
      exact plain_kept env doc l x anc tag attrs kids hsub hlin hsrc hanc hinside htok
        hcontent
  refine ⟨hno, ?_, ?_⟩
  · rw [(scanInv_scan env doc).untouched x hno]
    exact hel
  · intro S hS
    rcases hS with rfl | rfl
    · obtain ⟨pre, post, hsplit, hst⟩ := run_resumed env doc order
      rw [hst]
      subst hsplit
      exact key pre (fun q hq => hperm.subset (List.mem_append_left _ hq))
    · exact key order (fun q hq => hperm.subset hq)

/-- Witness for C7 (as amended): `div` with an empty `data-include` and the text
"kept", beside a directive element whose inclusion succeeds. -/
theorem element_without_source_is_left_alone_witness :
    ∃ el, lineage el
        (run (deliveringEnv "A" "") emptyBesideInclude
          (pipelines (deliveringEnv "A" "") emptyBesideInclude)).1.document =
      some ([], .element "div" [("data-include", "")] [.text "kept"]) :=
  ((element_without_source_is_left_alone (deliveringEnv "A" "") emptyBesideInclude
    (pipelines (deliveringEnv "A" "") emptyBesideInclude) .here [] "div"
    [("data-include", "")] [.text "kept"]
    (List.Perm.refl _) rfl (Or.inr rfl)).2.2 _ (Or.inl rfl)).2.2 (by decide) (by decide)
    (fun s hs => absurd hs (List.not_mem_nil s))
    (contentCarriesNoToken_demoParse _ _ rfl)

/-- C7 (counterexample): `div` with an empty `data-include` around a directive
element.  The `div` lacks a source value, yet when `run()` has resolved its
content is not what it was: the nested element has been filled and cleaned. -/
theorem content_of_element_without_source_changes :
    nodeAt .here emptyAroundInclude =
      some (.element "div" [("data-include", "")]
        [.element "p" [("data-include", "a.html")] []]) ∧
    nodeAt .here
      (run (deliveringEnv "A" "") emptyAroundInclude
        (pipelines (deliveringEnv "A" "") emptyAroundInclude)).1.document =
      some (.element "div" [("data-include", "")] [.element "p" [] [.text "A"]]) ∧
    (run (deliveringEnv "A" "") emptyAroundInclude
      (pipelines (deliveringEnv "A" "") emptyAroundInclude)).2 = RunResult.resolved ∧
    ([.element "p" [] [.text "A"]] : List Node) ≠ [.element "p" [("data-include", "a.html")] []] :=
  ⟨rfl, rfl, rfl, by simp⟩

/-! ## Failure isolation -/

/-- C3 (as amended): let A and B be the two directive elements with a URL of a
document.  If the fetch or body read of A fails with an error whose message is
`m`, the body of B arrives and its transform returns `data`, and the token of B
re-locates B after the scan, then in either order of settlement the final
document is the scanned document with B replaced by what the renderer's table
makes of B's own tag, attributes and `data`, exactly one message is published,
it is the one for the URL of A, and `run()` resolves. -/
theorem failure_isolation (env : Env) (doc : List Node) (order : List Pipeline)
    (a b : Pipeline) (m : String) (tag : String) (attrs : Attrs) (kids : List Node)
    (text data : String)
    (hperm : order.Perm (pipelines env doc))
    (hpipes : (pipelines env doc).Perm [a, b])
    (ha : (env.outcome a.index).thrown = some (.error m))
    (hb : env.outcome b.index = .body text)
    (hel : nodeAt b.el doc = some (.element tag attrs kids))
    (htrans : env.runTransforms text (getAttribute attrs "data-oninclude") b.url = .ok data)
    (hlocate : querySelector (tokenSelector b.id) (scan env doc).1.document = some b.el) :
    (run env doc order).1.document =
      modifyAt (fun _ => includedNodes env.parseFragment tag attrs data) b.el
        (scan env doc).1.document ∧
    (run env doc order).1.published = [errorMessage a.url m] ∧
    (run env doc order).2 = RunResult.resolved := by
  have inv := scanInv_scan env doc
  have hbp : b ∈ pipelines env doc := hpipes.symm.subset (by simp)
  have htag := inv.tagged b hbp
  rw [elementAt_of_nodeAt _ _ _ _ _ hel] at htag
  have htrans' : env.runTransforms text
      (getAttribute (setAttribute attrs "data-include-id" b.id) "data-oninclude") b.url =
      .ok data := by
    rw [getAttribute_setAttribute_ne _ _ _ _ (by decide)]
    exact htrans
  have hpub : (scan env doc).1.published = [] := inv.quiet.2.2
  have hresa : ∀ st : State, resume env a st =
      ({ st with
          logged := st.logged ++ [(a.el, .error m)]
          published := st.published ++ [errorMessage a.url m] }, Settlement.fulfilled) := by
    intro st
    rw [resume_of_thrown env a st _ ha]
    rfl
  have hresb : ∀ st : State, st.document = (scan env doc).1.document →
      resume env b st =
      ({ st with
          transformCalls := st.transformCalls ++
            [(text, getAttribute (setAttribute attrs "data-include-id" b.id) "data-oninclude",
              b.url)]
          document := modifyAt (fun _ => includedNodes env.parseFragment tag attrs data) b.el
            st.document }, Settlement.fulfilled) := by
    intro st hst
    have hproc := processResponse_located env text b.id b.url st b.el tag _ data
      (by rw [hst]; exact hlocate) (by rw [hst]; exact htag) htrans'
    rw [includedNodes_setAttribute_id] at hproc
    simp [resume, attempt, hb, hproc]
  rcases perm_pair order a b (hperm.trans hpipes) with rfl | rfl
  · unfold run
    simp [awaitAll, hresa, hresb, hpub]
  · unfold run
    simp [awaitAll, hresa, hresb, hpub]

/-- Witness for C3 (as amended): the fetch of the first element rejects with
message "404", the second element receives "B", and the second settles first. -/
theorem failure_isolation_witness :
    (run (mixedEnv (.error "404") "B") twoIncludes
      (pipelines (mixedEnv (.error "404") "B") twoIncludes).reverse).1.document =
      modifyAt (fun _ => includedNodes demoParse "p" [("data-include", "b.html")] "B")
        (.next .here) (scan (mixedEnv (.error "404") "B") twoIncludes).1.document ∧
    (run (mixedEnv (.error "404") "B") twoIncludes
      (pipelines (mixedEnv (.error "404") "B") twoIncludes).reverse).1.published =
      [errorMessage "a.html" "404"] ∧
    (run (mixedEnv (.error "404") "B") twoIncludes
      (pipelines (mixedEnv (.error "404") "B") twoIncludes).reverse).2 = RunResult.resolved :=
  failure_isolation (mixedEnv (.error "404") "B") twoIncludes
    (pipelines (mixedEnv (.error "404") "B") twoIncludes).reverse
    { el := .here, url := "a.html", id := "include-111", index := 0 }
    { el := .next .here, url := "b.html", id := "include-222", index := 1 }
    "404" "p" [("data-include", "b.html")] [] "B" "B"
    (List.reverse_perm _) (by decide) rfl rfl rfl rfl (by decide)

/-- C3 (counterexample): the random source returns the same number at both draws,
the fetch of the first element A rejects with message "404" and the second
element B receives "B".  The pipeline of B re-locates A, the first element that
carries the shared token: `run()` resolves, the content of B has landed in A,
and B itself is neither filled nor cleaned. -/
theorem shared_token_breaks_isolation :
    (pipelines collidingEnv twoIncludes).map Pipeline.id = ["include-111", "include-111"] ∧
    collidingEnv.outcome 0 = .rejected (.error "404") ∧
    collidingEnv.outcome 1 = .body "B" ∧
    (run collidingEnv twoIncludes (pipelines collidingEnv twoIncludes)).1.document =
      [.element "div" [] [.text "B"],
       .element "p" [("data-include", "b.html"), ("data-include-id", "include-111")] []] ∧
    (run collidingEnv twoIncludes (pipelines collidingEnv twoIncludes).reverse).1.document =
      [.element "div" [] [.text "B"],
       .element "p" [("data-include", "b.html"), ("data-include-id", "include-111")] []] ∧
    (run collidingEnv twoIncludes (pipelines collidingEnv twoIncludes)).2 =
      RunResult.resolved ∧
    (run collidingEnv twoIncludes (pipelines collidingEnv twoIncludes).reverse).2 =
      RunResult.resolved :=
  ⟨rfl, rfl, rfl, rfl, rfl, rfl, rfl⟩

/-! ## Correlation tokens -/

/-- C9 (as amended): the tokens assigned by one run are pairwise distinct whenever
the strings `String(Math.random()).substr(2)` of its draws are pairwise
distinct; every scanned element gets at most one pipeline; and if, moreover, no
element outside the pipelines already carries one of the tokens in
`data-include-id`, then after the scan each token is carried by exactly one
element, the one of its pipeline, so that `querySelector` re-locates it. -/
theorem tokens_distinct_when_draws_distinct (env : Env) (doc : List Node)
    (hdraws : ∀ i j, i < j → j < (pipelines env doc).length →
      substr2 (env.random i) ≠ substr2 (env.random j)) :
    ((pipelines env doc).map Pipeline.id).Nodup ∧
    ((pipelines env doc).map Pipeline.el).Nodup ∧
    ((∀ x, ∀ q ∈ pipelines env doc, (∀ r ∈ pipelines env doc, r.el ≠ x) →
        dataset doc x "data-include-id" ≠ some q.id) →
      ∀ q ∈ pipelines env doc,
        querySelectorAll (tokenSelector q.id) (scan env doc).1.document = [q.el]) := by
  have hids := pipelines_id_nodup env doc hdraws
  refine ⟨hids, (scanInv_scan env doc).nodup, ?_⟩
  intro hfresh q hq
  exact scanned_carriers env doc q hq hids (fun x hx => hfresh x q hq hx)
    (pipeline_element_valid env doc q hq)

/-- Witness for C9 (as amended): two directive elements and the draws "0.111" and
"0.222". -/
theorem tokens_distinct_when_draws_distinct_witness :
    ((pipelines (deliveringEnv "A" "B") twoIncludes).map Pipeline.id).Nodup :=
  (tokens_distinct_when_draws_distinct (deliveringEnv "A" "B") twoIncludes
    (by
      intro i j hij hj
      have hlen : (pipelines (deliveringEnv "A" "B") twoIncludes).length = 2 := rfl
      rw [hlen] at hj
      obtain rfl : j = 1 := by omega
      obtain rfl : i = 0 := by omega
      decide)).1

/-- C9 (counterexample): the random source returns the same number at both draws.
The two directive elements get the same token, and when the second fetch
settles first its pipeline re-locates the first element: the content "B" of
`b.html` lands in the `div` that asked for `a.html`, and "A" in the `p`. -/
theorem equal_draws_give_equal_tokens :
    (pipelines constantRandomEnv twoIncludes).map Pipeline.id = ["include-111", "include-111"] ∧
    (pipelines constantRandomEnv twoIncludes).map Pipeline.url = ["a.html", "b.html"] ∧
    constantRandomEnv.outcome 0 = .body "A" ∧ constantRandomEnv.outcome 1 = .body "B" ∧
    (run constantRandomEnv twoIncludes
      (pipelines constantRandomEnv twoIncludes).reverse).1.document =
      [.element "div" [] [.text "B"], .element "p" [] [.text "A"]] ∧
    (run constantRandomEnv twoIncludes
      (pipelines constantRandomEnv twoIncludes).reverse).2 = RunResult.resolved :=
  ⟨rfl, rfl, rfl, rfl, rfl, rfl⟩

/-! ## Cleanup -/

/-- C4 (the code at the failing input): `div` with `data-include="a.html"` and
`data-oninclude="f"` whose inclusion succeeds.  When `run()` has resolved the element is
still in the tree, `data-include` and the token are gone, and the transform-list
attribute `data-oninclude` is still there: `removeIncludeAttributes` removes
the attribute named `oninclude`, which is not the one `dataset.oninclude`
reads. -/
theorem oninclude_attribute_survives_cleanup :
    (run (deliveringEnv "<b>hi</b>" "") includeWithTransforms
      (pipelines (deliveringEnv "<b>hi</b>" "") includeWithTransforms)).1.document =
      [.element "div" [("data-oninclude", "f")] [.element "b" [] [.text "hi"]]] ∧
    dataset
      (run (deliveringEnv "<b>hi</b>" "") includeWithTransforms
        (pipelines (deliveringEnv "<b>hi</b>" "") includeWithTransforms)).1.document
      .here "data-oninclude" = some "f" ∧
    (run (deliveringEnv "<b>hi</b>" "") includeWithTransforms
      (pipelines (deliveringEnv "<b>hi</b>" "") includeWithTransforms)).1.transformCalls =
      [("<b>hi</b>", some "f", "a.html")] ∧
    (run (deliveringEnv "<b>hi</b>" "") includeWithTransforms
      (pipelines (deliveringEnv "<b>hi</b>" "") includeWithTransforms)).2 =
      RunResult.resolved :=
  ⟨rfl, rfl, rfl, rfl⟩

end DataInclude
